import Mathlib

/-!
# Receipt processor: the scoring engine, the store and the handlers of `main.go`

A shallow embedding of `calculatePoints` (main.go, lines 81-127), of the two global maps
and of the handlers `processReceipts`, `getPoints` and `listReceipts`, together with the
library behaviour they rely on:

* Go strings that reach `calculatePoints` come out of `encoding/json`, which only
  produces valid UTF-8, so a Go string is a Lean `String` (a list of Unicode scalar
  values) and `len(s)` is the number of bytes of its UTF-8 encoding;
* Go `int` is the 64-bit two's complement integer, `+` wraps around (`addInt`);
* `float64` is IEEE 754 binary64, embedded exactly: a finite value is the rational
  number it denotes, every arithmetic result is rounded to nearest, ties to even
  (`roundToF64`).  The two zeros are identified: the program never observes the sign
  of a zero (it only uses `==`, `*`, `math.Ceil` and conversion to `int`);
* the conversion `int(f)` of a NaN, an infinity or a value outside the `int` range is
  implementation-dependent in Go; it is a parameter of the embedding (`Arch`);
* `strconv.ParseFloat`, `time.Parse`, `strings.TrimSpace` and `regexp` are embedded
  from their Go implementation, specialised to the constant arguments used here;
* a handler is a function of the maps and of what it reads of the request; the JSON
  decoder is embedded by its result (a `Receipt` or an error), `uuid.New()` by the UUID
  it draws, and requests are served one after the other.
-/

namespace ReceiptProcessor

/-! ## Data model (main.go, lines 16-27) -/

/-- The `Item` struct. -/
structure Item where
  ShortDescription : String
  Price : String
deriving DecidableEq

/-- The `Receipt` struct. -/
structure Receipt where
  Retailer : String
  PurchaseDate : String
  PurchaseTime : String
  Total : String
  Items : List Item
deriving DecidableEq

/-! ## Go `int` -/

/-- Reduction of a mathematical integer into the range of a 64-bit `int`. -/
def wrapInt (x : Int) : Int := (x + 2 ^ 63) % 2 ^ 64 - 2 ^ 63

/-- The `+` (and `+=`) of Go on `int`: addition that wraps around. -/
def addInt (a b : Int) : Int := wrapInt (a + b)

/-- Whether a mathematical integer is an `int` value. -/
def inIntRange (x : Int) : Prop := -(2 ^ 63) ≤ x ∧ x < 2 ^ 63

instance (x : Int) : Decidable (inIntRange x) := by
  unfold inIntRange; infer_instance

/-! ## Characters and strings -/

/-- The character class `[a-zA-Z0-9]` of `alnumRegex`. -/
def alnumRegex (c : Char) : Bool :=
  (97 ≤ c.toNat && c.toNat ≤ 122) || (65 ≤ c.toNat && c.toNat ≤ 90) ||
    (48 ≤ c.toNat && c.toNat ≤ 57)

/-- The slice `alnumRegex.FindAllString(s, -1)`: the successive one-character matches. -/
def FindAllString (s : String) : List Char := s.data.filter alnumRegex

/-- Number of bytes of the UTF-8 encoding of a character. -/
def utf8Len (c : Char) : Nat :=
  if c.toNat < 128 then 1 else if c.toNat < 2048 then 2 else if c.toNat < 65536 then 3 else 4

/-- The builtin `len` on a string: its number of bytes. -/
def len (s : List Char) : Nat := (s.map utf8Len).sum

/-- The predicate `unicode.IsSpace`. -/
def IsSpace (c : Char) : Bool :=
  let n := c.toNat
  (9 ≤ n && n ≤ 13) || n == 32 || n == 133 || n == 160 || n == 5760 ||
    (8192 ≤ n && n ≤ 8202) || n == 8232 || n == 8233 || n == 8239 || n == 8287 || n == 12288

/-- The function `strings.TrimSpace`: leading and trailing white space removed. -/
def TrimSpace (s : List Char) : List Char :=
  ((s.dropWhile IsSpace).reverse.dropWhile IsSpace).reverse

/-- The test `'0' <= c && c <= '9'`. -/
def isDigit (c : Char) : Bool := 48 ≤ c.toNat && c.toNat ≤ 57

/-- The value `c - '0'` of a digit. -/
def digitVal (c : Char) : Nat := c.toNat - 48

/-- The helper `lower` of strconv: `c | ('x' - 'X')`. -/
def lower (c : Char) : Nat := c.toNat ||| 32

/-! ## `float64` -/

/-- The values of `float64`; `fin q` is the finite value denoting the rational `q`. -/
inductive Float64 where
  | nan
  | inf (neg : Bool)
  | fin (q : Rat)
deriving DecidableEq

/-- Nearest natural number to `n / d`, ties to the even one (`0 < d`). -/
def roundHalfEven (n d : Nat) : Nat :=
  let q := n / d
  let r := n % d
  if 2 * r < d then q else if d < 2 * r then q + 1 else if q % 2 = 0 then q else q + 1

/-- The loop of `ilog2`: halving until below two, at most `fuel` times. -/
def log2Loop : Nat → Nat → Nat
  | 0, _ => 0
  | fuel + 1, n => if n < 2 then 0 else log2Loop fuel (n / 2) + 1

/-- The natural `k` with `2 ^ k ≤ n < 2 ^ (k + 1)`, for positive `n`. -/
def ilog2 (n : Nat) : Nat := log2Loop n n

/-- The integer `e` with `2 ^ e ≤ n / d < 2 ^ (e + 1)`, for positive `n` and `d`. -/
def floorLog2 (n d : Nat) : Int :=
  let e : Int := (ilog2 n : Int) - (ilog2 d : Int)
  if (if 0 ≤ e then 2 ^ e.toNat * d ≤ n else d ≤ 2 ^ (-e).toNat * n) then e else e - 1

/-- The rational `m * b ^ k`. -/
def scalePow (m b : Nat) (k : Int) : Rat :=
  if 0 ≤ k then ((m * b ^ k.toNat : Nat) : Rat) else mkRat m (b ^ (-k).toNat)

/-- Nearest natural number to `(n / d) / 2 ^ k`, ties to the even one. -/
def roundMant (n d : Nat) (k : Int) : Nat :=
  if 0 ≤ k then roundHalfEven n (d * 2 ^ k.toNat) else roundHalfEven (n * 2 ^ (-k).toNat) d

/-- Rounding of the positive rational `n / d` to binary64: 53 significant bits, the
exponent of the last place never below `-1074`; `none` when the rounded value does not
fit below `2 ^ 1024`. -/
def roundMag (n d : Nat) : Option Rat :=
  let e := max (floorLog2 n d) (-1022)
  let v := scalePow (roundMant n d (e - 52)) 2 (e - 52)
  if (2 : Rat) ^ 1024 ≤ v then none else some v

/-- Rounding of an exact result to `float64`: to nearest, ties to even, overflow to an
infinity, underflow to subnormals and zero. -/
def roundToF64 (q : Rat) : Float64 :=
  if q = 0 then .fin 0
  else match roundMag q.num.natAbs q.den with
    | none => .inf (decide (q < 0))
    | some v => .fin (if q < 0 then -v else v)

/-- The operator `*` on `float64`. -/
def Float64.mul : Float64 → Float64 → Float64
  | .nan, _ => .nan
  | _, .nan => .nan
  | .inf a, .inf b => .inf (a != b)
  | .inf a, .fin q => if q = 0 then .nan else .inf (a != decide (q < 0))
  | .fin q, .inf b => if q = 0 then .nan else .inf (decide (q < 0) != b)
  | .fin p, .fin q => roundToF64 (p * q)

/-- The operator `==` on `float64`. -/
def Float64.eq : Float64 → Float64 → Bool
  | .inf a, .inf b => a == b
  | .fin p, .fin q => decide (p = q)
  | _, _ => false

/-- The function `math.Ceil`. -/
def Ceil : Float64 → Float64
  | .fin q => .fin ⌈q⌉
  | f => f

/-- The conversion `float64(i)` of an `int`. -/
def Float64.ofInt (i : Int) : Float64 := roundToF64 i

/-- What Go leaves to the implementation: the result of `int(f)` when `f` is a NaN, an
infinity or a finite value outside the range of `int`. -/
structure Arch where
  intOfUnrepresentable : Float64 → Int

/-- The amd64 implementation: the conversion instruction yields the smallest `int`. -/
def amd64 : Arch := ⟨fun _ => -(2 ^ 63)⟩

/-- The part of `int(f)` that Go defines: the value truncated towards zero, when `f`
is finite and the truncation is an `int`. -/
def Float64.truncInt : Float64 → Option Int
  | .fin q =>
    let t : Int := if 0 ≤ q then ⌊q⌋ else ⌈q⌉
    if inIntRange t then some t else none
  | _ => none

/-- The conversion `int(f)`. -/
def Float64.toInt (arch : Arch) (f : Float64) : Int :=
  match f.truncInt with
  | some t => t
  | none => wrapInt (arch.intOfUnrepresentable f)

/-! ## `strconv.ParseFloat` (atof.go) -/

/-- The two errors of strconv. -/
inductive NumError where
  | ErrSyntax
  | ErrRange
deriving DecidableEq

/-- Length of the longest common start of `s` and `pre`, upper case of `s` folded. -/
def commonPrefixLenIgnoreCase : List Char → List Char → Nat
  | c :: s, p :: pre =>
    let c1 := if 65 ≤ c.toNat ∧ c.toNat ≤ 90 then c.toNat + 32 else c.toNat
    if c1 = p.toNat then commonPrefixLenIgnoreCase s pre + 1 else 0
  | _, _ => 0

/-- The `'i', 'I'` case of `special`: `inf` or `infinity`, any case. -/
def specialInf (neg : Bool) (s : List Char) : Option (Float64 × List Char) :=
  let n := commonPrefixLenIgnoreCase s "infinity".data
  let n := if 3 < n ∧ n < 8 then 3 else n
  if n = 3 ∨ n = 8 then some (.inf neg, s.drop n) else none

/-- The function `special`: the value and the text left after it. -/
def special (s : List Char) : Option (Float64 × List Char) :=
  match s with
  | [] => none
  | c :: t =>
    if c = '+' ∨ c = '-' then specialInf (decide (c = '-')) t
    else if c = 'i' ∨ c = 'I' then specialInf false s
    else if c = 'n' ∨ c = 'N' then
      if commonPrefixLenIgnoreCase s "nan".data = 3 then some (.nan, s.drop 3) else none
    else none

/-- State of the digit loop of `readFloat`. The mantissa keeps every digit (the Go
code keeps 19 and re-reads the text in its exact fallback when digits were dropped). -/
structure Digits where
  mantissa : Nat
  nd : Nat
  dp : Int
  sawdot : Bool
  sawdigits : Bool
  underscores : Bool

/-- The digit loop of `readFloat`: the state at the loop exit and the text left. -/
def readDigits (hex : Bool) : List Char → Digits → Digits × List Char
  | [], st => (st, [])
  | c :: cs, st =>
    if c = '_' then readDigits hex cs { st with underscores := true }
    else if c = '.' then
      if st.sawdot then (st, c :: cs)
      else readDigits hex cs { st with sawdot := true, dp := st.nd }
    else if isDigit c then
      if c = '0' ∧ st.nd = 0 then
        readDigits hex cs { st with sawdigits := true, dp := st.dp - 1 }
      else
        readDigits hex cs { st with
          sawdigits := true, nd := st.nd + 1,
          mantissa := st.mantissa * (if hex then 16 else 10) + digitVal c }
    else if hex ∧ 97 ≤ lower c ∧ lower c ≤ 102 then
      readDigits hex cs { st with
        sawdigits := true, nd := st.nd + 1,
        mantissa := st.mantissa * 16 + (lower c - 97 + 10) }
    else (st, c :: cs)

/-- The exponent loop of `readFloat`: digits and underscores; the exponent stops
growing at 10000. -/
def readExpDigits : List Char → Nat → Bool → Nat × Bool × List Char
  | [], e, u => (e, u, [])
  | c :: cs, e, u =>
    if c = '_' then readExpDigits cs e true
    else if isDigit c then readExpDigits cs (if e < 10000 then e * 10 + digitVal c else e) u
    else (e, u, c :: cs)

/-- The loop of `underscoreOK`; `saw` is the last kind of character seen. -/
def underscoreLoop (hex : Bool) : List Char → Char → Bool
  | [], saw => saw != '_'
  | c :: cs, saw =>
    if isDigit c ∨ (hex ∧ 97 ≤ lower c ∧ lower c ≤ 102) then underscoreLoop hex cs '0'
    else if c = '_' then (if saw != '0' then false else underscoreLoop hex cs '_')
    else if saw = '_' then false
    else underscoreLoop hex cs '!'

/-- The function `underscoreOK`: underscores only between digits or after a base. -/
def underscoreOK (s : List Char) : Bool :=
  let s := match s with
    | c :: t => if c = '-' ∨ c = '+' then t else s
    | [] => s
  match s with
  | a :: b :: t =>
    if a = '0' ∧ (lower b = 98 ∨ lower b = 111 ∨ lower b = 120) then
      underscoreLoop (lower b = 120) t '0'
    else underscoreLoop false s '^'
  | _ => underscoreLoop false s '^'

/-- What `readFloat` returns: the number read is `mantissa * 10 ^ exp`, or
`mantissa * 2 ^ exp` when `hex`. -/
structure FloatLit where
  mantissa : Nat
  exp : Int
  neg : Bool
  hex : Bool

/-- The end of `readFloat`: the exponent of the mantissa and the underscore check;
`s` is the whole text and `rest` what is left of it. -/
def readFloatEnd (s rest : List Char) (neg hex : Bool) (mantissa : Nat) (dp : Int)
    (ndMant : Nat) (underscores : Bool) : Option (FloatLit × List Char) :=
  let exp : Int := if mantissa ≠ 0 then dp - ndMant else 0
  if underscores ∧ ¬ underscoreOK (s.take (s.length - rest.length)) then none
  else some (⟨mantissa, exp, neg, hex⟩, rest)

/-- The test `i+2 < len(s) && s[i] == '0' && lower(s[i+1]) == 'x'` of `readFloat`. -/
def hasHexPrefix (s : List Char) : Bool :=
  match s with
  | a :: b :: _ :: _ => decide (a = '0' ∧ lower b = 120)
  | _ => false

/-- The function `readFloat`: `none` when not `ok`, else the number and the text left. -/
def readFloat (s : List Char) : Option (FloatLit × List Char) :=
  match s with
  | [] => none
  | c0 :: t0 =>
    let neg := decide (c0 = '-')
    let s1 := if c0 = '+' ∨ c0 = '-' then t0 else s
    let hex := hasHexPrefix s1
    let s2 := if hex then s1.drop 2 else s1
    let (st, s3) := readDigits hex s2 ⟨0, 0, 0, false, false, false⟩
    if !st.sawdigits then none
    else
      let dp : Int := if st.sawdot then st.dp else st.nd
      let dp := if hex then dp * 4 else dp
      let ndMant := if hex then st.nd * 4 else st.nd
      match s3 with
      | [] => if hex then none else readFloatEnd s s3 neg hex st.mantissa dp ndMant st.underscores
      | c :: t3 =>
        if lower c = (if hex then 112 else 101) then
          match t3 with
          | [] => none
          | c1 :: t4 =>
            let esign : Int := if c1 = '-' then -1 else 1
            let s4 := if c1 = '+' ∨ c1 = '-' then t4 else t3
            match s4 with
            | [] => none
            | d :: _ =>
              if !isDigit d then none
              else
                let (e, us, s5) := readExpDigits s4 0 false
                readFloatEnd s s5 neg hex st.mantissa (dp + e * esign) ndMant
                  (st.underscores || us)
        else if hex then none
        else readFloatEnd s s3 neg hex st.mantissa dp ndMant st.underscores

/-- The exact number a `FloatLit` stands for. -/
def FloatLit.value (r : FloatLit) : Rat :=
  let v := scalePow r.mantissa (if r.hex then 2 else 10) r.exp
  if r.neg then -v else v

/-- The function `atof64`: the nearest `float64` to the number read (what its fast
paths, `atofHex` and its exact decimal fallback compute), the text left, the error. -/
def atof64 (s : List Char) : Float64 × List Char × Option NumError :=
  match special s with
  | some (f, rest) => (f, rest, none)
  | none =>
    match readFloat s with
    | none => (.fin 0, s, some .ErrSyntax)
    | some (r, rest) =>
      match roundToF64 r.value with
      | .inf neg => (.inf neg, rest, some .ErrRange)
      | f => (f, rest, none)

/-- The function `strconv.ParseFloat(s, 64)`: the value and the error. -/
def ParseFloat (s : String) : Float64 × Option NumError :=
  match atof64 s.data with
  | (f, rest, err) =>
    if rest ≠ [] ∧ err ≠ some .ErrSyntax then (.fin 0, some .ErrSyntax) else (f, err)

/-! ## `time.Parse` (format.go), for the layouts `"2006-01-02"` and `"15:04"` -/

/-- The fields of a `time.Time` in UTC that the layouts can set. -/
structure Time where
  year : Nat
  month : Nat
  day : Nat
  hour : Nat
  min : Nat
deriving DecidableEq

/-- The zero value `Time{}`, returned with every parse error: January 1, year 1,
00:00. -/
def Time.zero : Time := ⟨1, 1, 1, 0, 0⟩

/-- The method `Day`: the day of the month. -/
def Time.Day (t : Time) : Int := t.day

/-- The method `Hour`. -/
def Time.Hour (t : Time) : Int := t.hour

/-- The function `getnum`: a one or two digit number, two digits when `fixed`. -/
def getnum (s : List Char) (fixed : Bool) : Option (Nat × List Char) :=
  match s with
  | [] => none
  | c0 :: t =>
    if !isDigit c0 then none
    else match t with
      | [] => if fixed then none else some (digitVal c0, t)
      | c1 :: t1 =>
        if !isDigit c1 then (if fixed then none else some (digitVal c0, t))
        else some (digitVal c0 * 10 + digitVal c1, t1)

/-- The `stdLongYear` case of `Parse`: exactly four digits. -/
def getYear (s : List Char) : Option (Nat × List Char) :=
  match s with
  | a :: b :: c :: d :: rest =>
    if isDigit a && isDigit b && isDigit c && isDigit d then
      some (((digitVal a * 10 + digitVal b) * 10 + digitVal c) * 10 + digitVal d, rest)
    else none
  | _ => none

/-- The function `skip` for a layout text of one character that is not a space. -/
def skip (value : List Char) (c : Char) : Option (List Char) :=
  match value with
  | [] => none
  | v :: rest => if v = c then some rest else none

/-- The function `isLeap`. -/
def isLeap (year : Nat) : Bool := year % 4 == 0 && (year % 100 != 0 || year % 400 == 0)

/-- The table `daysBefore`. -/
def daysBefore : List Nat :=
  [0, 31, 31 + 28, 31 + 28 + 31, 31 + 28 + 31 + 30, 31 + 28 + 31 + 30 + 31,
    31 + 28 + 31 + 30 + 31 + 30, 31 + 28 + 31 + 30 + 31 + 30 + 31,
    31 + 28 + 31 + 30 + 31 + 30 + 31 + 31, 31 + 28 + 31 + 30 + 31 + 30 + 31 + 31 + 30,
    31 + 28 + 31 + 30 + 31 + 30 + 31 + 31 + 30 + 31,
    31 + 28 + 31 + 30 + 31 + 30 + 31 + 31 + 30 + 31 + 30,
    31 + 28 + 31 + 30 + 31 + 30 + 31 + 31 + 30 + 31 + 30 + 31]

/-- The function `daysIn`, for a month from 1 to 12. -/
def daysIn (m year : Nat) : Nat :=
  if m = 2 ∧ isLeap year then 29 else daysBefore.getD m 0 - daysBefore.getD (m - 1) 0

/-- The call `time.Parse("2006-01-02", s)`; `none` stands for a parse error. -/
def ParseDate (s : String) : Option Time :=
  match getYear s.data with
  | none => none
  | some (year, value) =>
    match skip value '-' with
    | none => none
    | some value =>
      match getnum value true with
      | none => none
      | some (month, value) =>
        if month ≤ 0 ∨ 12 < month then none
        else match skip value '-' with
          | none => none
          | some value =>
            match getnum value true with
            | none => none
            | some (day, value) =>
              if value ≠ [] then none
              else if day < 1 ∨ day > daysIn month year then none
              else some ⟨year, month, day, 0, 0⟩

/-- The call `time.Parse("15:04", s)`; `none` stands for a parse error. The date is
January 1 of year 0. -/
def ParseClock (s : String) : Option Time :=
  match getnum s.data false with
  | none => none
  | some (hour, value) =>
    if 24 ≤ hour then none
    else match skip value ':' with
      | none => none
      | some value =>
        match getnum value true with
        | none => none
        | some (min, value) =>
          if 60 ≤ min then none
          else if value ≠ [] then none
          else some ⟨0, 1, 1, hour, min⟩

/-! ## `calculatePoints` (main.go, lines 81-127), one definition for each block -/

/-- Lines 84-87: one point for every match of `alnumRegex` in the retailer name. -/
def retailerStep (receipt : Receipt) (points : Int) : Int :=
  let retailerPoints : Int := (FindAllString receipt.Retailer).length
  addInt points retailerPoints

/-- Lines 89-93: `if total == float64(int(total)) { points += 50 }`. -/
def roundDollarStep (arch : Arch) (receipt : Receipt) (points : Int) : Int :=
  let total := (ParseFloat receipt.Total).1
  if total.eq (Float64.ofInt (total.toInt arch)) then addInt points 50 else points

/-- Lines 95-98: `if int(total*100)%25 == 0 { points += 25 }`. -/
def quarterStep (arch : Arch) (receipt : Receipt) (points : Int) : Int :=
  let total := (ParseFloat receipt.Total).1
  if ((total.mul (.fin 100)).toInt arch).tmod 25 = 0 then addInt points 25 else points

/-- Lines 100-102: `(len(receipt.Items) / 2) * 5`; the length of a slice of 32-byte
items is far too small for the product to overflow. -/
def itemPairStep (receipt : Receipt) (points : Int) : Int :=
  let itemPairPoints : Int := ((receipt.Items.length / 2 : Nat) : Int) * 5
  addInt points itemPairPoints

/-- Line 109: `int(math.Ceil(price * 0.2))` for the price text of an item. -/
def itemPoints (arch : Arch) (price : String) : Int :=
  let price := (ParseFloat price).1
  (Ceil (price.mul (roundToF64 (1 / 5)))).toInt arch

/-- Lines 106-111: the body of the loop over the items. -/
def itemStep (arch : Arch) (points : Int) (item : Item) : Int :=
  let trimmedDescription := TrimSpace item.ShortDescription.data
  if len trimmedDescription % 3 = 0 then addInt points (itemPoints arch item.Price)
  else points

/-- Lines 104-112: the loop over the items. -/
def descriptionStep (arch : Arch) (receipt : Receipt) (points : Int) : Int :=
  receipt.Items.foldl (itemStep arch) points

/-- Lines 114-118: `if date.Day()%2 != 0 { points += 6 }`. -/
def oddDayStep (receipt : Receipt) (points : Int) : Int :=
  let date := (ParseDate receipt.PurchaseDate).getD Time.zero
  if date.Day.tmod 2 ≠ 0 then addInt points 6 else points

/-- Lines 120-124: `if time.Hour() >= 14 && time.Hour() < 16 { points += 10 }`. -/
def afternoonStep (receipt : Receipt) (points : Int) : Int :=
  let time := (ParseClock receipt.PurchaseTime).getD Time.zero
  if time.Hour ≥ 14 ∧ time.Hour < 16 then addInt points 10 else points

/-- The function `calculatePoints`. -/
def calculatePoints (arch : Arch) (receipt : Receipt) : Int :=
  let points := 0
  let points := retailerStep receipt points
  let points := roundDollarStep arch receipt points
  let points := quarterStep arch receipt points
  let points := itemPairStep receipt points
  let points := descriptionStep arch receipt points
  let points := oddDayStep receipt points
  let points := afternoonStep receipt points
  points

/-! ## The store and the handlers (main.go, lines 29-79 and 130-138) -/

/-- The lookup `v, ok := m[k]` in a Go map, given as the list of its entries. -/
def mapGet {V : Type} : List (String × V) → String → Option V
  | [], _ => none
  | (k1, v) :: rest, k => if k1 = k then some v else mapGet rest k

/-- The assignment `m[k] = v` in a Go map: the entry of `k` is replaced or added. -/
def mapSet {V : Type} (m : List (String × V)) (k : String) (v : V) : List (String × V) :=
  (k, v) :: m.filter (fun e => decide (e.1 ≠ k))

/-- The two global maps `receipts` and `points`. -/
structure Store where
  receipts : List (String × Receipt)
  points : List (String × Int)
deriving DecidableEq

/-- The maps at the start of the process: both empty. -/
def Store.empty : Store := ⟨[], []⟩

/-- What a handler reads of a `*http.Request`: the method, `r.URL.Path`, and the result
of decoding the body as the JSON of a `Receipt` (`none` when `Decode` returns an
error). -/
structure Request where
  Method : String
  Path : String
  Body : Option Receipt

/-- What a handler writes as the body of its answer. -/
inductive Reply where
  | error (message : String)
  | id (id : String)
  | points (point : Int)
  | receipts (all : List (String × Receipt))
deriving DecidableEq

/-- The answer of a handler: the status code and the body. -/
structure Response where
  status : Nat
  body : Reply
deriving DecidableEq

/-- A `uuid.UUID`: 16 bytes. -/
structure UUID where
  bytes : List (Fin 256)
  size : bytes.length = 16

/-- The digits of `encoding/hex`. -/
def hextable : List Char := "0123456789abcdef".data

/-- The function `hex.Encode`: two digits for every byte. -/
def hexEncode : List (Fin 256) → List Char
  | [] => []
  | b :: rest => hextable.getD (b.val / 16) '0' :: hextable.getD (b.val % 16) '0' :: hexEncode rest

/-- The method `String` of a UUID: `xxxxxxxx-xxxx-xxxx-xxxx-xxxxxxxxxxxx`. -/
def UUID.String (uuid : UUID) : String :=
  ⟨hexEncode (uuid.bytes.take 4) ++ '-' :: hexEncode ((uuid.bytes.drop 4).take 2) ++
    '-' :: hexEncode ((uuid.bytes.drop 6).take 2) ++
    '-' :: hexEncode ((uuid.bytes.drop 8).take 2) ++ '-' :: hexEncode (uuid.bytes.drop 10)⟩

/-- The function `strings.Trim` for a cutset of one character. -/
def Trim (s : List Char) (cutset : Char) : List Char :=
  ((s.dropWhile (fun c => c == cutset)).reverse.dropWhile (fun c => c == cutset)).reverse

/-- The function `strings.Split` for a separator of one character. -/
def Split (s : List Char) (sep : Char) : List (List Char) :=
  match s with
  | [] => [[]]
  | c :: cs =>
    if c = sep then [] :: Split cs sep
    else match Split cs sep with
      | [] => [[c]]
      | part :: parts => (c :: part) :: parts

/-- The handler `processReceipts`; `uuid` is the value that `uuid.New()` draws. -/
def processReceipts (arch : Arch) (uuid : UUID) (st : Store) (r : Request) :
    Store × Response :=
  if r.Method ≠ "POST" then (st, ⟨405, .error "Invalid request method"⟩)
  else match r.Body with
    | none => (st, ⟨400, .error "Bad request"⟩)
    | some receipt =>
      let id := uuid.String
      (⟨mapSet st.receipts id receipt, mapSet st.points id (calculatePoints arch receipt)⟩,
        ⟨200, .id id⟩)

/-- The handler `getPoints`. -/
def getPoints (st : Store) (r : Request) : Response :=
  let pathParts := Split (Trim r.Path.data '/') '/'
  if pathParts.length ≠ 3 ∨ pathParts.getD 2 [] ≠ "points".data then
    ⟨400, .error "Invalid URL path"⟩
  else
    let id : String := ⟨pathParts.getD 1 []⟩
    match mapGet st.points id with
    | none => ⟨404, .error "Not found"⟩
    | some point => ⟨200, .points point⟩

/-- The handler `listReceipts`. -/
def listReceipts (st : Store) (r : Request) : Response :=
  if r.Method ≠ "GET" then ⟨405, .error "Invalid request method"⟩
  else ⟨200, .receipts st.receipts⟩

/-- The three handlers registered in `main`. -/
inductive Handler where
  | processReceipts (uuid : UUID)
  | getPoints
  | listReceipts

/-- One request served by one handler: the maps afterwards and the answer. -/
def serve (arch : Arch) (st : Store) (call : Handler × Request) : Store × Response :=
  match call.1 with
  | .processReceipts uuid => processReceipts arch uuid st call.2
  | .getPoints => (st, getPoints st call.2)
  | .listReceipts => (st, listReceipts st call.2)

/-- The maps after a sequence of requests served one after the other. -/
def serveAll (arch : Arch) (st : Store) (calls : List (Handler × Request)) : Store :=
  calls.foldl (fun s call => (serve arch s call).1) st

/-! ## Notions of the specification, used to state the properties -/

/-- The number of ASCII letters and digits of a text. -/
def asciiAlnumCount (s : String) : Nat := (s.data.filter Char.isAlphanum).length

/-- The receipt `r` with the retailer name replaced. -/
def withRetailer (r : Receipt) (name : String) : Receipt :=
  ⟨name, r.PurchaseDate, r.PurchaseTime, r.Total, r.Items⟩

/-- A receipt whose items are worth `2 ^ 63 - 1024` and `1018` points. -/
def hugeReceipt : Receipt :=
  ⟨"A", "2022-01-02", "13:00", "1.10", [⟨"", "46116860184273870000"⟩, ⟨"", "5090"⟩]⟩

/-- The first example receipt of the service. -/
def targetReceipt : Receipt :=
  ⟨"Target", "2022-01-01", "13:01", "35.35",
    [⟨"Mountain Dew 12PK", "6.49"⟩, ⟨"Emils Cheese Pizza", "12.25"⟩,
      ⟨"Knorr Creamy Chicken", "1.26"⟩, ⟨"Doritos Nacho Cheese", "3.35"⟩,
      ⟨"   Klarbrunn 12-PK 12 FL OZ  ", "12.00"⟩]⟩

/-- The decimal digit character of `n % 10`. -/
def digitChar (n : Nat) : Char := Char.ofNat (48 + n % 10)

/-- The text `YYYY-MM-DD` of a date. -/
def isoDate (y m d : Nat) : String :=
  ⟨[digitChar (y / 1000), digitChar (y / 100), digitChar (y / 10), digitChar y, '-',
    digitChar (m / 10), digitChar m, '-', digitChar (d / 10), digitChar d]⟩

/-- The text `HH:MM` of a time of day. -/
def clockText (h mi : Nat) : String :=
  ⟨[digitChar (h / 10), digitChar h, ':', digitChar (mi / 10), digitChar mi]⟩

/-- The number of days of month `m` of year `y` in the Gregorian calendar. -/
def gregorianMonthLength (y m : Nat) : Nat :=
  if m = 2 then (if (y % 4 = 0 ∧ y % 100 ≠ 0) ∨ y % 400 = 0 then 29 else 28)
  else if m = 4 ∨ m = 6 ∨ m = 9 ∨ m = 11 then 30
  else 31

/-- A calendar date that has a `YYYY-MM-DD` text. -/
def validDate (y m d : Nat) : Prop :=
  y ≤ 9999 ∧ 1 ≤ m ∧ m ≤ 12 ∧ 1 ≤ d ∧ d ≤ gregorianMonthLength y m

instance (y m d : Nat) : Decidable (validDate y m d) := by
  unfold validDate; infer_instance

/-- A time of day of the 24-hour clock. -/
def validClock (h mi : Nat) : Prop := h < 24 ∧ mi < 60

instance (h mi : Nat) : Decidable (validClock h mi) := by
  unfold validClock; infer_instance

/-- The receipt `r` with the purchase date replaced. -/
def withDate (r : Receipt) (date : String) : Receipt :=
  ⟨r.Retailer, date, r.PurchaseTime, r.Total, r.Items⟩

/-- The receipt `r` with the purchase time replaced. -/
def withTime (r : Receipt) (time : String) : Receipt :=
  ⟨r.Retailer, r.PurchaseDate, time, r.Total, r.Items⟩

/-- The receipt `r` with the total replaced. -/
def withTotal (r : Receipt) (total : String) : Receipt :=
  ⟨r.Retailer, r.PurchaseDate, r.PurchaseTime, total, r.Items⟩

/-- The receipt `r` with the items replaced. -/
def withItems (r : Receipt) (items : List Item) : Receipt :=
  ⟨r.Retailer, r.PurchaseDate, r.PurchaseTime, r.Total, items⟩

/-- An item whose price text is replaced by "0.0" when it has a syntax error. -/
def zeroBadPrice (item : Item) : Item :=
  if (ParseFloat item.Price).2 = some .ErrSyntax then ⟨item.ShortDescription, "0.0"⟩ else item

/-- An item with an empty short description and an empty price. -/
def emptyItem : Item := ⟨"", ""⟩

/-- The exact sum of the amounts the blocks of `calculatePoints` add, as a mathematical
integer (no wrap-around between the blocks). -/
def rawPoints (arch : Arch) (r : Receipt) : Int :=
  ((FindAllString r.Retailer).length : Int) + roundDollarStep arch r 0 + quarterStep arch r 0 +
    ((r.Items.length / 2 : Nat) : Int) * 5 + (r.Items.map (itemStep arch 0)).sum +
    oddDayStep r 0 + afternoonStep r 0

/-- A price text that `ParseFloat` turns into a finite value from 0 to `2 ^ 64` (the
value is 0 for a text with a syntax error). -/
def priceInRange (price : String) : Prop :=
  match (ParseFloat price).1 with
  | .fin q => 0 ≤ q ∧ q ≤ 2 ^ 64
  | _ => False

instance (price : String) : Decidable (priceInRange price) := by
  unfold priceInRange; split <;> infer_instance

/-- The second example receipt of the service. -/
def cornerMarketReceipt : Receipt :=
  ⟨"M&M Corner Market", "2022-03-20", "14:33", "9.00",
    [⟨"Gatorade", "2.25"⟩, ⟨"Gatorade", "2.25"⟩, ⟨"Gatorade", "2.25"⟩, ⟨"Gatorade", "2.25"⟩]⟩

/-- The number written by a list of decimal digits, after the number `acc`. -/
def digitsValue (acc : Nat) (ds : List (Fin 10)) : Nat :=
  ds.foldl (fun a d => a * 10 + d.val) acc

/-- The characters of a list of decimal digits. -/
def digitChars (ds : List (Fin 10)) : List Char := ds.map (fun d => digitChar d.val)

/-- The price text with the digits `ds` before the point and the two digits `a`, `b`
after it. -/
def priceText (ds : List (Fin 10)) (a b : Fin 10) : String :=
  ⟨digitChars ds ++ ['.', digitChar a.val, digitChar b.val]⟩

/-- The number of cents of `priceText ds a b`. -/
def priceCents (ds : List (Fin 10)) (a b : Fin 10) : Nat :=
  digitsValue 0 ds * 100 + a.val * 10 + b.val

/-- A text without the character `/`. -/
def noSlash (l : List Char) : Prop := ∀ c ∈ l, c ≠ '/'

instance (l : List Char) : Decidable (noSlash l) := by
  unfold noSlash; infer_instance

/-- The function `strings.Join` for a separator of one character. -/
def joinWith (sep : Char) : List (List Char) → List Char
  | [] => []
  | [part] => part
  | part :: next :: rest => part ++ sep :: joinWith sep (next :: rest)

/-- The path made of `n` slashes, the segments `first`, `id` and `points`, and `m`
slashes. -/
def pointsPath (n m : Nat) (first id : List Char) : String :=
  ⟨List.replicate n '/' ++ (first ++ '/' :: (id ++ '/' :: "points".data)) ++
    List.replicate m '/'⟩

/-- Whether a path has exactly the shape `/receipts/<id>/points`: cut at every `/`, it
gives an empty text, `receipts`, one more text and `points`. -/
def hasExactShape (path : String) : Bool :=
  match Split path.data '/' with
  | [[], first, _, last] => decide (first = "receipts".data ∧ last = "points".data)
  | _ => false

/-- What `getPoints` answers once it has the identifier of the request. -/
def pointsAnswer (st : Store) (id : String) : Response :=
  match mapGet st.points id with
  | none => ⟨404, .error "Not found"⟩
  | some point => ⟨200, .points point⟩

/-- The identifier `12345678-9abc-def0-0123-456789abcdef`. -/
def sampleUUID : UUID :=
  ⟨[0x12, 0x34, 0x56, 0x78, 0x9a, 0xbc, 0xde, 0xf0, 0x01, 0x23, 0x45, 0x67, 0x89, 0xab, 0xcd,
    0xef], by decide⟩

/-- The identifier `00000000-0000-0000-0000-000000000000`. -/
def zeroUUID : UUID := ⟨List.replicate 16 0, by decide⟩

/-- The receipt of the end-to-end scenario, with the price of its item left open. -/
def scenarioReceipt (price : String) : Receipt :=
  ⟨"M&M Corner Market", "2022-03-20", "14:33", "6.49", [⟨"Gatorade", price⟩]⟩

/-! ## Go `int` arithmetic -/

theorem wrapInt_add_left (a b : Int) : wrapInt (wrapInt a + b) = wrapInt (a + b) := by
  unfold wrapInt; omega

theorem wrapInt_of_inIntRange (x : Int) (h : inIntRange x) : wrapInt x = x := by
  unfold inIntRange at h; unfold wrapInt; omega

theorem inIntRange_wrapInt (x : Int) : inIntRange (wrapInt x) := by
  unfold inIntRange wrapInt; omega

theorem addInt_shift (p k c : Int) : addInt (wrapInt (p + k)) c = wrapInt (addInt p c + k) := by
  unfold addInt wrapInt; omega

theorem addInt_ne_self (p c : Int) (h0 : 0 < c) (h1 : c < 2 ^ 64) : addInt p c ≠ p := by
  unfold addInt wrapInt; omega

/-! ## Every block adds an amount that does not depend on the points so far -/

theorem roundDollarStep_shift (arch : Arch) (r : Receipt) (p k : Int) :
    roundDollarStep arch r (wrapInt (p + k)) = wrapInt (roundDollarStep arch r p + k) := by
  unfold roundDollarStep
  dsimp only
  split
  · exact addInt_shift p k 50
  · rfl

theorem quarterStep_shift (arch : Arch) (r : Receipt) (p k : Int) :
    quarterStep arch r (wrapInt (p + k)) = wrapInt (quarterStep arch r p + k) := by
  unfold quarterStep
  dsimp only
  split
  · exact addInt_shift p k 25
  · rfl

theorem itemPairStep_shift (r : Receipt) (p k : Int) :
    itemPairStep r (wrapInt (p + k)) = wrapInt (itemPairStep r p + k) := by
  unfold itemPairStep
  exact addInt_shift p k _

theorem itemStep_shift (arch : Arch) (item : Item) (p k : Int) :
    itemStep arch (wrapInt (p + k)) item = wrapInt (itemStep arch p item + k) := by
  unfold itemStep
  dsimp only
  split
  · exact addInt_shift p k _
  · rfl

theorem foldl_itemStep_shift (arch : Arch) (items : List Item) (p k : Int) :
    items.foldl (itemStep arch) (wrapInt (p + k)) =
      wrapInt (items.foldl (itemStep arch) p + k) := by
  induction items generalizing p with
  | nil => rfl
  | cons item rest ih =>
    simp only [List.foldl_cons]
    rw [itemStep_shift, ih]

theorem oddDayStep_shift (r : Receipt) (p k : Int) :
    oddDayStep r (wrapInt (p + k)) = wrapInt (oddDayStep r p + k) := by
  unfold oddDayStep
  dsimp only
  split
  · exact addInt_shift p k 6
  · rfl

theorem afternoonStep_shift (r : Receipt) (p k : Int) :
    afternoonStep r (wrapInt (p + k)) = wrapInt (afternoonStep r p + k) := by
  unfold afternoonStep
  dsimp only
  split
  · exact addInt_shift p k 10
  · rfl

/-! ## The retailer name rule -/

theorem alnumRegex_eq_isAlphanum (c : Char) : alnumRegex c = c.isAlphanum := by
  have h65 : (UInt32.toBitVec 65).toNat = 65 := rfl
  have h90 : (UInt32.toBitVec 90).toNat = 90 := rfl
  have h97 : (UInt32.toBitVec 97).toNat = 97 := rfl
  have h122 : (UInt32.toBitVec 122).toNat = 122 := rfl
  have h48 : (UInt32.toBitVec 48).toNat = 48 := rfl
  have h57 : (UInt32.toBitVec 57).toNat = 57 := rfl
  rw [Bool.eq_iff_iff]
  simp only [alnumRegex, Char.isAlphanum, Char.isAlpha, Char.isUpper, Char.isLower,
    Char.isDigit, Char.toNat, UInt32.le_def, ge_iff_le, BitVec.le_def, UInt32.toNat,
    h65, h90, h97, h122, h48, h57, Bool.or_eq_true, Bool.and_eq_true, decide_eq_true_eq]
  omega

theorem FindAllString_length (s : String) :
    (FindAllString s).length = asciiAlnumCount s := by
  have h : alnumRegex = Char.isAlphanum := funext alnumRegex_eq_isAlphanum
  unfold FindAllString asciiAlnumCount
  rw [h]

/-- The blocks after the retailer block add the same amount whatever the points so
far, up to wrap-around. -/
theorem afterRetailer_shift (arch : Arch) (r : Receipt) (p k : Int) :
    afternoonStep r (oddDayStep r (descriptionStep arch r (itemPairStep r
      (quarterStep arch r (roundDollarStep arch r (wrapInt (p + k))))))) =
    wrapInt (afternoonStep r (oddDayStep r (descriptionStep arch r (itemPairStep r
      (quarterStep arch r (roundDollarStep arch r p))))) + k) := by
  unfold descriptionStep
  rw [roundDollarStep_shift, quarterStep_shift, itemPairStep_shift, foldl_itemStep_shift,
    oddDayStep_shift, afternoonStep_shift]

/-- C1, amended. For every receipt `r`, `calculatePoints r` is `calculatePoints` of the
same receipt with an empty retailer name plus the number of ASCII letters and digits of
the retailer name of `r` (every other character counting for nothing), the sum being
taken in the wrapping 64-bit `int` arithmetic of Go; whenever that sum is an `int`
(no overflow) the first exceeds the second by exactly that number; for the retailer
"Target" the number is 6. -/
theorem C1_retailer_rule (arch : Arch) (r : Receipt) :
    calculatePoints arch r =
        wrapInt (calculatePoints arch (withRetailer r "") + asciiAlnumCount r.Retailer) ∧
      (inIntRange (calculatePoints arch (withRetailer r "") + asciiAlnumCount r.Retailer) →
        calculatePoints arch r - calculatePoints arch (withRetailer r "") =
          asciiAlnumCount r.Retailer) ∧
      asciiAlnumCount "Target" = 6 := by
  have key : calculatePoints arch r =
      wrapInt (calculatePoints arch (withRetailer r "") + asciiAlnumCount r.Retailer) := by
    have e0 : retailerStep (withRetailer r "") 0 = 0 := by
      show addInt 0 ((FindAllString "").length : Int) = 0
      decide
    have e1 : retailerStep r 0 = wrapInt (0 + asciiAlnumCount r.Retailer) := by
      unfold retailerStep addInt
      rw [FindAllString_length]
    have h := afterRetailer_shift arch r 0 (asciiAlnumCount r.Retailer)
    unfold calculatePoints
    dsimp only
    rw [e0, e1]
    exact h
  refine ⟨key, ?_, by decide⟩
  intro hr
  rw [key, wrapInt_of_inIntRange _ hr]
  omega

/-- Witness of C1 on the first example receipt: the totals 28 and 22 differ by 6. -/
theorem C1_retailer_rule_witness :
    inIntRange (calculatePoints amd64 (withRetailer targetReceipt "") +
        asciiAlnumCount targetReceipt.Retailer) ∧
      calculatePoints amd64 targetReceipt -
          calculatePoints amd64 (withRetailer targetReceipt "") =
        asciiAlnumCount targetReceipt.Retailer :=
  ⟨by decide!, (C1_retailer_rule amd64 targetReceipt).2.1 (by decide!)⟩

/-- C1 as stated fails when the sum overflows: on a receipt whose other rules are worth
`2 ^ 63 - 1` points, one letter in the retailer name makes the total wrap around to
`-2 ^ 63`, so the two totals do not differ by 1. -/
theorem C1_retailer_rule_counterexample :
    asciiAlnumCount hugeReceipt.Retailer = 1 ∧
      calculatePoints amd64 (withRetailer hugeReceipt "") = 2 ^ 63 - 1 ∧
      calculatePoints amd64 hugeReceipt = -(2 ^ 63) ∧
      calculatePoints amd64 hugeReceipt - calculatePoints amd64 (withRetailer hugeReceipt "") ≠
        asciiAlnumCount hugeReceipt.Retailer := by
  decide!

/-! ## The purchase date and the purchase time -/

theorem digitChar_spec (n : Nat) :
    isDigit (digitChar n) = true ∧ digitVal (digitChar n) = n % 10 := by
  have h : ∀ k, k < 10 →
      isDigit (Char.ofNat (48 + k)) = true ∧ digitVal (Char.ofNat (48 + k)) = k := by
    decide
  exact h (n % 10) (Nat.mod_lt n (by decide))

theorem daysIn_eq_gregorian (y m : Nat) (h1 : 1 ≤ m) (h12 : m ≤ 12) :
    daysIn m y = gregorianMonthLength y m := by
  have hleap : isLeap y = true ↔ ((y % 4 = 0 ∧ y % 100 ≠ 0) ∨ y % 400 = 0) := by
    unfold isLeap
    simp only [Bool.and_eq_true, Bool.or_eq_true, beq_iff_eq, bne_iff_ne, ne_eq]
    omega
  unfold daysIn gregorianMonthLength
  interval_cases m <;> simp [daysBefore, hleap]

theorem ParseDate_isoDate (y m d : Nat) (hv : validDate y m d) :
    ParseDate (isoDate y m d) = some ⟨y, m, d, 0, 0⟩ := by
  obtain ⟨hy, hm1, hm12, hd1, hd⟩ := hv
  have hd31 : d ≤ 31 := by
    have : gregorianMonthLength y m ≤ 31 := by
      unfold gregorianMonthLength; split_ifs <;> omega
    omega
  rw [← daysIn_eq_gregorian y m hm1 hm12] at hd
  have ey : ((y / 1000 % 10 * 10 + y / 100 % 10) * 10 + y / 10 % 10) * 10 + y % 10 = y := by
    omega
  have em : m / 10 % 10 * 10 + m % 10 = m := by omega
  have ed : d / 10 % 10 * 10 + d % 10 = d := by omega
  simp [ParseDate, isoDate, getYear, getnum, skip, digitChar_spec, ey, em, ed]
  omega

theorem ParseClock_clockText (h mi : Nat) (hv : validClock h mi) :
    ParseClock (clockText h mi) = some ⟨0, 1, 1, h, mi⟩ := by
  obtain ⟨hh, hmi⟩ := hv
  have eh : h / 10 % 10 * 10 + h % 10 = h := by omega
  have em : mi / 10 % 10 * 10 + mi % 10 = mi := by omega
  simp [ParseClock, clockText, getnum, skip, digitChar_spec, eh, em]
  omega

/-- C5. For every receipt whose purchase date is the `YYYY-MM-DD` text of a valid
calendar date (year 0 to 9999, month 1 to 12, day within the month), the odd-day block
of `calculatePoints` adds 6 to the points when the day of the month is odd and leaves
them unchanged when it is even (adding 6 always changes the points); the dates
"2022-01-01" and "2022-01-02" are such texts, of an odd and of an even day. -/
theorem C5_odd_day_rule (r : Receipt) (points : Int) (y m d : Nat)
    (hv : validDate y m d) (hd : r.PurchaseDate = isoDate y m d) :
    oddDayStep r points = (if d % 2 = 1 then addInt points 6 else points) ∧
      addInt points 6 ≠ points ∧
      isoDate 2022 1 1 = "2022-01-01" ∧ isoDate 2022 1 2 = "2022-01-02" := by
  refine ⟨?_, addInt_ne_self points 6 (by decide) (by decide), by decide, by decide⟩
  unfold oddDayStep
  rw [hd, ParseDate_isoDate y m d hv]
  simp only [Option.getD_some, Time.Day]
  by_cases hodd : d % 2 = 1
  · have h2 : ((d : Int)).tmod 2 ≠ 0 := by
      rw [Int.tmod_eq_emod (by omega) (by omega)]; omega
    simp [hodd, h2]
  · have h2 : ((d : Int)).tmod 2 = 0 := by
      rw [Int.tmod_eq_emod (by omega) (by omega)]; omega
    simp [hodd, h2]

/-- Witness of C5: the date "2022-01-01" earns the 6 points. -/
theorem C5_odd_day_rule_witness :
    validDate 2022 1 1 ∧ validDate 2022 1 2 ∧
      oddDayStep (withDate targetReceipt "2022-01-01") 0 = 6 ∧
      oddDayStep (withDate targetReceipt "2022-01-02") 0 = 0 :=
  ⟨by decide, by decide,
    (C5_odd_day_rule (withDate targetReceipt "2022-01-01") 0 2022 1 1
      (by decide) (by decide)).1,
    (C5_odd_day_rule (withDate targetReceipt "2022-01-02") 0 2022 1 2
      (by decide) (by decide)).1⟩

/-- C6. For every receipt whose purchase time is the `HH:MM` text of a time of the
24-hour clock, the afternoon block of `calculatePoints` adds 10 to the points when the
hour `h` satisfies `14 ≤ h < 16` and leaves them unchanged otherwise (adding 10 always
changes the points); "14:33" is such a text and earns 10, "16:00" and "13:59" are such
texts and earn nothing. -/
theorem C6_afternoon_rule (r : Receipt) (points : Int) (h mi : Nat)
    (hv : validClock h mi) (ht : r.PurchaseTime = clockText h mi) :
    afternoonStep r points = (if 14 ≤ h ∧ h < 16 then addInt points 10 else points) ∧
      addInt points 10 ≠ points ∧
      clockText 14 33 = "14:33" ∧ clockText 16 0 = "16:00" ∧ clockText 13 59 = "13:59" := by
  refine ⟨?_, addInt_ne_self points 10 (by decide) (by decide), by decide, by decide,
    by decide⟩
  unfold afternoonStep
  rw [ht, ParseClock_clockText h mi hv]
  simp only [Option.getD_some, Time.Hour, ge_iff_le]
  by_cases hw : 14 ≤ h ∧ h < 16
  · have h2 : (14 : Int) ≤ (h : Int) ∧ (h : Int) < 16 := by omega
    simp [hw, h2]
  · have h2 : ¬ ((14 : Int) ≤ (h : Int) ∧ (h : Int) < 16) := by omega
    simp [hw, h2]

/-- Witness of C6: "14:33" earns 10 points, "16:00" and "13:59" earn none. -/
theorem C6_afternoon_rule_witness :
    validClock 14 33 ∧ validClock 16 0 ∧ validClock 13 59 ∧
      afternoonStep (withTime targetReceipt "14:33") 0 = 10 ∧
      afternoonStep (withTime targetReceipt "16:00") 0 = 0 ∧
      afternoonStep (withTime targetReceipt "13:59") 0 = 0 :=
  ⟨by decide, by decide, by decide,
    (C6_afternoon_rule (withTime targetReceipt "14:33") 0 14 33 (by decide) (by decide)).1,
    (C6_afternoon_rule (withTime targetReceipt "16:00") 0 16 0 (by decide) (by decide)).1,
    (C6_afternoon_rule (withTime targetReceipt "13:59") 0 13 59 (by decide) (by decide)).1⟩

/-- C7. The code contradicts the claim for dates: a purchase date that fails to parse
is replaced by the zero `Time`, whose day is 1, so the odd-day block adds 6 points; a
purchase time that fails to parse is replaced by the zero `Time`, whose hour is 0, so
the afternoon block adds nothing. -/
theorem C7_unparseable_date_time (r : Receipt) (points : Int) :
    (ParseDate r.PurchaseDate = none → oddDayStep r points = addInt points 6) ∧
      (ParseClock r.PurchaseTime = none → afternoonStep r points = points) ∧
      Time.zero.Day = 1 ∧ Time.zero.Hour = 0 := by
  refine ⟨?_, ?_, by decide, by decide⟩
  · intro h
    unfold oddDayStep
    rw [h]
    exact if_pos (by decide)
  · intro h
    unfold afternoonStep
    rw [h]
    exact if_neg (by decide)

/-- Witness of C7: the impossible date "2022-02-30" (an even day) and the empty date
both earn the 6 points of an odd day; the empty time earns nothing. -/
theorem C7_unparseable_date_time_witness :
    ParseDate "2022-02-30" = none ∧ ParseDate "" = none ∧ ParseClock "" = none ∧
      oddDayStep (withDate targetReceipt "2022-02-30") 0 = 6 ∧
      oddDayStep (withDate targetReceipt "") 0 = 6 ∧
      afternoonStep (withTime targetReceipt "") 0 = 0 ∧
      calculatePoints amd64 ⟨"", "2022-02-30", "00:00", "1.10", []⟩ = 6 :=
  ⟨by decide, by decide, by decide,
    (C7_unparseable_date_time (withDate targetReceipt "2022-02-30") 0).1 (by decide),
    (C7_unparseable_date_time (withDate targetReceipt "") 0).1 (by decide),
    (C7_unparseable_date_time (withTime targetReceipt "") 0).2.1 (by decide),
    by decide!⟩

/-! ## Parse failures of `ParseFloat` -/

theorem ParseFloat_syntax_value (s : String) (h : (ParseFloat s).2 = some .ErrSyntax) :
    (ParseFloat s).1 = .fin 0 := by
  unfold ParseFloat at h ⊢
  unfold atof64 at h ⊢
  cases hs : special s.data with
  | some v =>
    obtain ⟨f, rest⟩ := v
    simp only [hs] at h ⊢
    by_cases hr : rest = []
    · simp [hr] at h
    · simp [hr]
  | none =>
    simp only [hs] at h ⊢
    cases hf : readFloat s.data with
    | none => simp
    | some v =>
      obtain ⟨lit, rest⟩ := v
      simp only [hf] at h ⊢
      cases hv : roundToF64 lit.value with
      | nan =>
        simp only [hv] at h ⊢
        by_cases hr : rest = []
        · simp [hr] at h
        · simp [hr]
      | inf neg =>
        simp only [hv] at h ⊢
        by_cases hr : rest = []
        · simp [hr] at h
        · simp [hr]
      | fin q =>
        simp only [hv] at h ⊢
        by_cases hr : rest = []
        · simp [hr] at h
        · simp [hr]

theorem toInt_of_truncInt (arch : Arch) (f : Float64) (t : Int)
    (h : f.truncInt = some t) : f.toInt arch = t := by
  unfold Float64.toInt
  rw [h]

theorem itemPoints_of_zero (arch : Arch) (s : String) (h : (ParseFloat s).1 = .fin 0) :
    itemPoints arch s = 0 := by
  unfold itemPoints
  dsimp only
  rw [h]
  exact toInt_of_truncInt arch _ 0 (by decide!)

theorem roundDollarStep_of_zero (arch : Arch) (r : Receipt) (points : Int)
    (h : (ParseFloat r.Total).1 = .fin 0) :
    roundDollarStep arch r points = addInt points 50 := by
  unfold roundDollarStep
  dsimp only
  rw [h, toInt_of_truncInt arch (.fin 0) 0 (by decide!)]
  exact if_pos (by decide!)

theorem quarterStep_of_zero (arch : Arch) (r : Receipt) (points : Int)
    (h : (ParseFloat r.Total).1 = .fin 0) :
    quarterStep arch r points = addInt points 25 := by
  unfold quarterStep
  dsimp only
  rw [h, toInt_of_truncInt arch ((Float64.fin 0).mul (.fin 100)) 0 (by decide!)]
  exact if_pos (by decide)

theorem itemStep_zeroBadPrice (arch : Arch) (points : Int) (item : Item) :
    itemStep arch points (zeroBadPrice item) = itemStep arch points item := by
  unfold zeroBadPrice
  split
  · rename_i h
    unfold itemStep
    dsimp only
    rw [itemPoints_of_zero arch item.Price (ParseFloat_syntax_value _ h),
      itemPoints_of_zero arch "0.0" (by decide!)]
  · rfl

theorem foldl_itemStep_zeroBadPrice (arch : Arch) (items : List Item) (points : Int) :
    (items.map zeroBadPrice).foldl (itemStep arch) points =
      items.foldl (itemStep arch) points := by
  induction items generalizing points with
  | nil => rfl
  | cons item rest ih =>
    simp only [List.map_cons, List.foldl_cons]
    rw [itemStep_zeroBadPrice, ih]

/-- C9, amended. A total that `ParseFloat` rejects with a syntax error is scored by the
round-dollar and the quarter-multiple blocks exactly as the total "0.0" is (both bonuses
are added), and the whole of `calculatePoints` is what it is for the total "0.0"; an
item price rejected with a syntax error is worth 0 points, as the price "0.0" is, and
replacing every such price by "0.0" leaves `calculatePoints` unchanged. (A text that
is rejected as out of range, such as "1e400", is not scored as 0.0: the value kept is
an infinity.) -/
theorem C9_parse_failures (arch : Arch) (r : Receipt) :
    ((ParseFloat r.Total).2 = some .ErrSyntax →
        (∀ points, roundDollarStep arch r points = addInt points 50 ∧
          roundDollarStep arch (withTotal r "0.0") points = addInt points 50 ∧
          quarterStep arch r points = addInt points 25 ∧
          quarterStep arch (withTotal r "0.0") points = addInt points 25) ∧
        calculatePoints arch r = calculatePoints arch (withTotal r "0.0")) ∧
      (∀ item : Item, (ParseFloat item.Price).2 = some .ErrSyntax →
        itemPoints arch item.Price = 0 ∧ itemPoints arch "0.0" = 0 ∧
        ∀ points, itemStep arch points item =
          itemStep arch points ⟨item.ShortDescription, "0.0"⟩) ∧
      calculatePoints arch r = calculatePoints arch (withItems r (r.Items.map zeroBadPrice)) := by
  have hz : (ParseFloat "0.0").1 = .fin 0 := by decide!
  refine ⟨?_, ?_, ?_⟩
  · intro h
    have h0 := ParseFloat_syntax_value _ h
    have hr : ∀ points, roundDollarStep arch r points =
        roundDollarStep arch (withTotal r "0.0") points := by
      intro points
      rw [roundDollarStep_of_zero arch r points h0,
        roundDollarStep_of_zero arch (withTotal r "0.0") points hz]
    have hq : ∀ points, quarterStep arch r points =
        quarterStep arch (withTotal r "0.0") points := by
      intro points
      rw [quarterStep_of_zero arch r points h0,
        quarterStep_of_zero arch (withTotal r "0.0") points hz]
    refine ⟨fun points => ⟨roundDollarStep_of_zero arch r points h0,
      roundDollarStep_of_zero arch (withTotal r "0.0") points hz,
      quarterStep_of_zero arch r points h0,
      quarterStep_of_zero arch (withTotal r "0.0") points hz⟩, ?_⟩
    unfold calculatePoints
    dsimp only
    rw [hr, hq]
    rfl
  · intro item h
    have h0 := ParseFloat_syntax_value _ h
    refine ⟨itemPoints_of_zero arch _ h0, itemPoints_of_zero arch _ hz, ?_⟩
    intro points
    unfold itemStep
    dsimp only
    rw [itemPoints_of_zero arch _ h0, itemPoints_of_zero arch _ hz]
  · unfold calculatePoints descriptionStep itemPairStep
    dsimp only
    have hl : (withItems r (r.Items.map zeroBadPrice)).Items.length = r.Items.length := by
      simp [withItems]
    have hf : ∀ points, (withItems r (r.Items.map zeroBadPrice)).Items.foldl (itemStep arch)
        points = r.Items.foldl (itemStep arch) points := by
      intro points
      exact foldl_itemStep_zeroBadPrice arch r.Items points
    rw [hl, hf]
    rfl

/-- Witness of C9: the total "abc" and the price "abc" have a syntax error and are
scored as 0.0: a receipt with nothing but that total is worth the 75 points of the two
total bonuses. -/
theorem C9_parse_failures_witness :
    (ParseFloat "abc").2 = some .ErrSyntax ∧
      calculatePoints amd64 ⟨"", "2022-01-02", "13:00", "abc", []⟩ =
        calculatePoints amd64 (withTotal ⟨"", "2022-01-02", "13:00", "abc", []⟩ "0.0") ∧
      calculatePoints amd64 ⟨"", "2022-01-02", "13:00", "abc", []⟩ = 75 ∧
      itemPoints amd64 "abc" = 0 :=
  ⟨by decide!,
    ((C9_parse_failures amd64 ⟨"", "2022-01-02", "13:00", "abc", []⟩).1 (by decide!)).2,
    by decide!,
    ((C9_parse_failures amd64 ⟨"", "2022-01-02", "13:00", "abc", []⟩).2.1 ⟨"", "abc"⟩
      (by decide!)).1⟩

/-- C9 as stated fails for a text that is out of range: "1e400" fails to parse
(`ErrRange`), but the value kept is `+Inf`, not 0.0, and the round-dollar and the
quarter-multiple blocks add nothing where they add 50 and 25 for the total "0.0". -/
theorem C9_parse_failures_counterexample :
    ParseFloat "1e400" = (.inf false, some .ErrRange) ∧
      roundDollarStep amd64 ⟨"", "2022-01-02", "13:00", "1e400", []⟩ 0 = 0 ∧
      quarterStep amd64 ⟨"", "2022-01-02", "13:00", "1e400", []⟩ 0 = 0 ∧
      roundDollarStep amd64 ⟨"", "2022-01-02", "13:00", "0.0", []⟩ 0 = 50 ∧
      quarterStep amd64 ⟨"", "2022-01-02", "13:00", "0.0", []⟩ 0 = 25 ∧
      calculatePoints amd64 ⟨"", "2022-01-02", "13:00", "1e400", []⟩ ≠
        calculatePoints amd64 ⟨"", "2022-01-02", "13:00", "0.0", []⟩ := by
  decide!

/-! ## Items with empty texts -/

theorem foldl_itemStep_empty (arch : Arch) (items : List Item) (points : Int)
    (hp : inIntRange points)
    (h : ∀ it ∈ items, it.ShortDescription = "" ∧ it.Price = "") :
    items.foldl (itemStep arch) points = points := by
  induction items with
  | nil => rfl
  | cons item rest ih =>
    have hi := h item (List.mem_cons_self _ _)
    have e : itemStep arch points item = points := by
      unfold itemStep
      dsimp only
      rw [hi.1, hi.2, itemPoints_of_zero arch "" (by decide!)]
      have hl : len (TrimSpace "".data) % 3 = 0 := by decide
      rw [if_pos hl]
      unfold addInt
      rw [Int.add_zero]
      exact wrapInt_of_inIntRange points hp
    simp only [List.foldl_cons]
    rw [e]
    exact ih (fun it hit => h it (List.mem_cons_of_mem _ hit))

/-- C10, amended. For every receipt whose items all have an empty short description
and an empty price, whatever their number `n`, the description-length block of
`calculatePoints` adds nothing, and the item-pair block adds `5 * floor(n / 2)`: nothing
when there are fewer than two items, 5 points for every two items otherwise. -/
theorem C10_empty_items (arch : Arch) (r : Receipt) (points : Int)
    (hp : inIntRange points)
    (h : ∀ it ∈ r.Items, it.ShortDescription = "" ∧ it.Price = "") :
    descriptionStep arch r points = points ∧
      itemPairStep r points = addInt points (5 * ((r.Items.length / 2 : Nat) : Int)) ∧
      (r.Items.length < 2 → itemPairStep r points = points) := by
  refine ⟨foldl_itemStep_empty arch r.Items points hp h, ?_, ?_⟩
  · unfold itemPairStep
    dsimp only
    rw [Int.mul_comm]
  · intro hn
    unfold itemPairStep
    dsimp only
    have h0 : r.Items.length / 2 = 0 := by omega
    rw [h0]
    unfold addInt
    simp only [Nat.cast_zero, Int.zero_mul, Int.add_zero]
    exact wrapInt_of_inIntRange points hp

/-- Witness of C10: three empty items add nothing for their descriptions and 5 points
for the one pair they form. -/
theorem C10_empty_items_witness :
    descriptionStep amd64 ⟨"", "", "", "", [emptyItem, emptyItem, emptyItem]⟩ 0 = 0 ∧
      itemPairStep ⟨"", "", "", "", [emptyItem, emptyItem, emptyItem]⟩ 0 = addInt 0 (5 * 1) :=
  ⟨(C10_empty_items amd64 ⟨"", "", "", "", [emptyItem, emptyItem, emptyItem]⟩ 0
      (by decide) (by decide)).1,
    (C10_empty_items amd64 ⟨"", "", "", "", [emptyItem, emptyItem, emptyItem]⟩ 0
      (by decide) (by decide)).2.1⟩

/-- C10 as stated fails for the item-pair rule: two items with empty texts earn the 5
points of a pair. -/
theorem C10_empty_items_counterexample :
    itemPairStep ⟨"", "", "", "", [emptyItem, emptyItem]⟩ 0 = 5 ∧
      itemPairStep ⟨"", "", "", "", [emptyItem, emptyItem]⟩ 0 ≠ 0 ∧
      calculatePoints amd64 ⟨"", "2022-01-02", "13:00", "1.10", [emptyItem, emptyItem]⟩ = 5 := by
  decide!

/-! ## Rounding to `float64` -/

theorem log2Loop_spec : ∀ fuel n : Nat, n ≤ fuel → 1 ≤ n →
    2 ^ (log2Loop fuel n) ≤ n ∧ n < 2 ^ (log2Loop fuel n + 1) := by
  intro fuel
  induction fuel with
  | zero => intro n h0 h1; omega
  | succ fuel ih =>
    intro n hf h1
    unfold log2Loop
    by_cases h2 : n < 2
    · rw [if_pos h2]
      have : n = 1 := by omega
      subst this
      decide
    · rw [if_neg h2]
      have hih := ih (n / 2) (by omega) (by omega)
      have e1 : 2 ^ (log2Loop fuel (n / 2) + 1) = 2 * 2 ^ (log2Loop fuel (n / 2)) := by
        rw [pow_succ]; ring
      have e2 : 2 ^ (log2Loop fuel (n / 2) + 1 + 1) = 2 * 2 ^ (log2Loop fuel (n / 2) + 1) := by
        rw [pow_succ]; ring
      rw [e2]
      rw [e1] at hih ⊢
      omega

theorem ilog2_spec (n : Nat) (h : 1 ≤ n) : 2 ^ ilog2 n ≤ n ∧ n < 2 ^ (ilog2 n + 1) :=
  log2Loop_spec n n (le_refl n) h

theorem cast_pow_toNat (k : Int) (hk : 0 ≤ k) : ((2 ^ k.toNat : Nat) : Rat) = (2 : Rat) ^ k := by
  have h : ((k.toNat : Nat) : Int) = k := Int.toNat_of_nonneg hk
  rw [Nat.cast_pow, Nat.cast_ofNat, ← zpow_natCast, h]

theorem two_zpow_pos (k : Int) : (0 : Rat) < (2 : Rat) ^ k := zpow_pos (by norm_num) k

theorem floorLog2_spec (n d : Nat) (hn : 1 ≤ n) (hd : 1 ≤ d) :
    (2 : Rat) ^ (floorLog2 n d) ≤ (n : Rat) / d ∧
      (n : Rat) / d < (2 : Rat) ^ (floorLog2 n d + 1) := by
  obtain ⟨ha1, ha2⟩ := ilog2_spec n hn
  obtain ⟨hb1, hb2⟩ := ilog2_spec d hd
  have hdq : (0 : Rat) < (d : Rat) := by exact_mod_cast hd
  have hnq : (0 : Rat) < (n : Rat) := by exact_mod_cast hn
  have qa1 : (2 : Rat) ^ (ilog2 n : Int) ≤ n := by
    rw [zpow_natCast]; exact_mod_cast ha1
  have qa2 : (n : Rat) < (2 : Rat) ^ ((ilog2 n : Int) + 1) := by
    have : (n : Rat) < (2 : Rat) ^ (ilog2 n + 1) := by exact_mod_cast ha2
    rw [← zpow_natCast] at this
    push_cast at this
    exact this
  have qb1 : (2 : Rat) ^ (ilog2 d : Int) ≤ d := by
    rw [zpow_natCast]; exact_mod_cast hb1
  have qb2 : (d : Rat) < (2 : Rat) ^ ((ilog2 d : Int) + 1) := by
    have : (d : Rat) < (2 : Rat) ^ (ilog2 d + 1) := by exact_mod_cast hb2
    rw [← zpow_natCast] at this
    push_cast at this
    exact this
  -- the quotient lies strictly between 2 ^ (e0 - 1) and 2 ^ (e0 + 1)
  have hlow : (2 : Rat) ^ ((ilog2 n : Int) - (ilog2 d : Int) - 1) < (n : Rat) / d := by
    rw [lt_div_iff₀ hdq]
    have e : (2 : Rat) ^ ((ilog2 n : Int) - (ilog2 d : Int) - 1) * 2 ^ ((ilog2 d : Int) + 1)
        = 2 ^ (ilog2 n : Int) := by
      rw [← zpow_add₀ (by norm_num : (2 : Rat) ≠ 0)]
      congr 1
      ring
    calc (2 : Rat) ^ ((ilog2 n : Int) - (ilog2 d : Int) - 1) * d
        < (2 : Rat) ^ ((ilog2 n : Int) - (ilog2 d : Int) - 1) * 2 ^ ((ilog2 d : Int) + 1) :=
          mul_lt_mul_of_pos_left qb2 (two_zpow_pos _)
      _ = 2 ^ (ilog2 n : Int) := e
      _ ≤ n := qa1
  have hup : (n : Rat) / d < (2 : Rat) ^ ((ilog2 n : Int) - (ilog2 d : Int) + 1) := by
    rw [div_lt_iff₀ hdq]
    have e : (2 : Rat) ^ ((ilog2 n : Int) - (ilog2 d : Int) + 1) * 2 ^ (ilog2 d : Int)
        = 2 ^ ((ilog2 n : Int) + 1) := by
      rw [← zpow_add₀ (by norm_num : (2 : Rat) ≠ 0)]
      congr 1
      ring
    calc (n : Rat) < 2 ^ ((ilog2 n : Int) + 1) := qa2
      _ = (2 : Rat) ^ ((ilog2 n : Int) - (ilog2 d : Int) + 1) * 2 ^ (ilog2 d : Int) := e.symm
      _ ≤ (2 : Rat) ^ ((ilog2 n : Int) - (ilog2 d : Int) + 1) * d :=
          mul_le_mul_of_nonneg_left qb1 (le_of_lt (two_zpow_pos _))
  -- the test of `floorLog2`
  have htest : (if 0 ≤ (ilog2 n : Int) - (ilog2 d : Int)
        then 2 ^ ((ilog2 n : Int) - (ilog2 d : Int)).toNat * d ≤ n
        else d ≤ 2 ^ (-((ilog2 n : Int) - (ilog2 d : Int))).toNat * n) ↔
      (2 : Rat) ^ ((ilog2 n : Int) - (ilog2 d : Int)) ≤ (n : Rat) / d := by
    rw [le_div_iff₀ hdq]
    by_cases h0 : 0 ≤ (ilog2 n : Int) - (ilog2 d : Int)
    · rw [if_pos h0, ← cast_pow_toNat _ h0]
      exact_mod_cast Iff.rfl
    · rw [if_neg h0]
      have h1 : 0 ≤ -((ilog2 n : Int) - (ilog2 d : Int)) := by omega
      have e : (2 : Rat) ^ ((ilog2 n : Int) - (ilog2 d : Int)) =
          ((2 ^ (-((ilog2 n : Int) - (ilog2 d : Int))).toNat : Nat) : Rat)⁻¹ := by
        rw [cast_pow_toNat _ h1, zpow_neg, inv_inv]
      rw [e]
      have hp : (0 : Rat) < ((2 ^ (-((ilog2 n : Int) - (ilog2 d : Int))).toNat : Nat) : Rat) := by
        exact_mod_cast Nat.pos_pow_of_pos _ (by norm_num)
      rw [inv_mul_le_iff₀ hp]
      exact_mod_cast Iff.rfl
  unfold floorLog2
  dsimp only
  by_cases ht : (if 0 ≤ (ilog2 n : Int) - (ilog2 d : Int)
        then 2 ^ ((ilog2 n : Int) - (ilog2 d : Int)).toNat * d ≤ n
        else d ≤ 2 ^ (-((ilog2 n : Int) - (ilog2 d : Int))).toNat * n)
  · rw [if_pos ht]
    exact ⟨htest.mp ht, hup⟩
  · rw [if_neg ht]
    refine ⟨le_of_lt hlow, ?_⟩
    have : ¬ (2 : Rat) ^ ((ilog2 n : Int) - (ilog2 d : Int)) ≤ (n : Rat) / d :=
      fun h => ht (htest.mpr h)
    have e : (ilog2 n : Int) - (ilog2 d : Int) - 1 + 1 = (ilog2 n : Int) - (ilog2 d : Int) := by
      ring
    rw [e]
    exact lt_of_not_le this
theorem rhe_le (n d K : Nat) (hd : 0 < d) (h : n ≤ K * d) : roundHalfEven n d ≤ K := by
  have hdiv := Nat.div_add_mod n d
  have hmod := Nat.mod_lt n hd
  have hq : n / d ≤ K := by
    have : n / d ≤ K * d / d := Nat.div_le_div_right h
    rwa [Nat.mul_div_cancel _ hd] at this
  have hq1 : 0 < n % d → n / d + 1 ≤ K := by
    intro hr
    by_contra hc
    have hK : K = n / d := by omega
    rw [hK] at h
    nlinarith
  unfold roundHalfEven
  dsimp only
  split_ifs <;> omega

theorem rhe_exact (M d : Nat) (hd : 0 < d) : roundHalfEven (M * d) d = M := by
  unfold roundHalfEven
  dsimp only
  rw [Nat.mul_mod_left, Nat.mul_div_cancel _ hd]
  simp [hd]

theorem rhe_bounds (n d : Nat) (hd : 0 < d) :
    2 * (roundHalfEven n d * d) ≤ 2 * n + d ∧ 2 * n ≤ 2 * (roundHalfEven n d * d) + d := by
  have hdiv := Nat.div_add_mod n d
  have hmod := Nat.mod_lt n hd
  unfold roundHalfEven
  dsimp only
  generalize n / d = q at *
  generalize n % d = r at *
  subst hdiv
  split_ifs <;> constructor <;> nlinarith
theorem scalePow_two (m : Nat) (k : Int) : scalePow m 2 k = (m : Rat) * (2 : Rat) ^ k := by
  unfold scalePow
  by_cases hk : 0 ≤ k
  · rw [if_pos hk, Nat.cast_mul, cast_pow_toNat k hk]
  · rw [if_neg hk, Rat.mkRat_eq_div]
    have h1 : 0 ≤ -k := by omega
    rw [cast_pow_toNat _ h1, zpow_neg, div_inv_eq_mul, Int.cast_natCast]

/-- The mantissa is the rounding of a quotient of naturals equal to `(n / d) / 2 ^ k`. -/
theorem roundMant_ratio (n d : Nat) (k : Int) (hd : 0 < d) :
    ∃ n1 d1 : Nat, 0 < d1 ∧ roundMant n d k = roundHalfEven n1 d1 ∧
      (n1 : Rat) = (n : Rat) / d / (2 : Rat) ^ k * d1 := by
  have hdq : (d : Rat) ≠ 0 := by exact_mod_cast (Nat.pos_iff_ne_zero.mp hd)
  unfold roundMant
  by_cases hk : 0 ≤ k
  · rw [if_pos hk]
    refine ⟨n, d * 2 ^ k.toNat, Nat.mul_pos hd (Nat.pos_pow_of_pos _ (by norm_num)), rfl, ?_⟩
    rw [Nat.cast_mul, cast_pow_toNat k hk]
    have := (two_zpow_pos k).ne'
    field_simp
  · rw [if_neg hk]
    have h1 : 0 ≤ -k := by omega
    refine ⟨n * 2 ^ (-k).toNat, d, hd, rfl, ?_⟩
    rw [Nat.cast_mul, cast_pow_toNat _ h1, zpow_neg]
    have := (two_zpow_pos k).ne'
    field_simp
    ring

theorem roundMant_le (n d K : Nat) (k : Int) (hd : 0 < d)
    (h : (n : Rat) / d ≤ K * (2 : Rat) ^ k) : roundMant n d k ≤ K := by
  obtain ⟨n1, d1, hd1, e, hr⟩ := roundMant_ratio n d k hd
  rw [e]
  apply rhe_le n1 d1 K hd1
  have hd1q : (0 : Rat) < d1 := by exact_mod_cast hd1
  have h2 : (n : Rat) / d / (2 : Rat) ^ k ≤ K := by
    rw [div_le_iff₀ (two_zpow_pos k)]; exact h
  have : (n1 : Rat) ≤ (K : Rat) * d1 := by
    rw [hr]; exact mul_le_mul_of_nonneg_right h2 (le_of_lt hd1q)
  exact_mod_cast this

theorem roundMant_exact (n d M : Nat) (k : Int) (hd : 0 < d)
    (h : (n : Rat) / d = M * (2 : Rat) ^ k) : roundMant n d k = M := by
  obtain ⟨n1, d1, hd1, e, hr⟩ := roundMant_ratio n d k hd
  rw [e]
  have h2 : (n : Rat) / d / (2 : Rat) ^ k = M := by
    rw [h]; exact mul_div_cancel_right₀ _ (two_zpow_pos k).ne'
  rw [h2] at hr
  have : n1 = M * d1 := by exact_mod_cast hr
  rw [this]
  exact rhe_exact M d1 hd1

theorem roundMant_err (n d : Nat) (k : Int) (hd : 0 < d) :
    |(roundMant n d k : Rat) * (2 : Rat) ^ k - (n : Rat) / d| ≤ (2 : Rat) ^ k / 2 := by
  obtain ⟨n1, d1, hd1, e, hr⟩ := roundMant_ratio n d k hd
  rw [e]
  obtain ⟨b1, b2⟩ := rhe_bounds n1 d1 hd1
  have hd1q : (0 : Rat) < d1 := by exact_mod_cast hd1
  have hp := two_zpow_pos k
  have q1 : 2 * ((roundHalfEven n1 d1 : Rat) * d1) ≤ 2 * n1 + d1 := by exact_mod_cast b1
  have q2 : 2 * (n1 : Rat) ≤ 2 * ((roundHalfEven n1 d1 : Rat) * d1) + d1 := by exact_mod_cast b2
  have hx : (n : Rat) / d = (n1 : Rat) / d1 * (2 : Rat) ^ k := by
    rw [hr]; field_simp; ring
  rw [hx, abs_le]
  have hy1 : (roundHalfEven n1 d1 : Rat) ≤ (n1 : Rat) / d1 + 1 / 2 := by
    rw [div_add' _ _ _ hd1q.ne', le_div_iff₀ hd1q]; linarith
  have hy2 : (n1 : Rat) / d1 - 1 / 2 ≤ (roundHalfEven n1 d1 : Rat) := by
    rw [div_sub' _ _ _ hd1q.ne', div_le_iff₀ hd1q]; linarith
  constructor
  · nlinarith
  · nlinarith

theorem natAbs_div_den (q : Rat) (h0 : 0 < q) : ((q.num.natAbs : Nat) : Rat) / q.den = q := by
  have hn : 0 < q.num := Rat.num_pos.mpr h0
  have e : ((q.num.natAbs : Nat) : Rat) = ((q.num : Int) : Rat) := by
    rw [Nat.cast_natAbs, abs_of_pos hn]
  rw [e]
  exact Rat.num_div_den q

/-- Shape of the rounding of a positive number: the exponent `e` found by `floorLog2`
brackets the number, and the result is the rounded mantissa scaled back. -/
theorem roundToF64_pos (q : Rat) (h0 : 0 < q) :
    ∃ e : Int, (2 : Rat) ^ e ≤ q ∧ q < (2 : Rat) ^ (e + 1) ∧
      ∃ m : Nat, m = roundMant q.num.natAbs q.den (max e (-1022) - 52) ∧
        roundToF64 q =
          (if (2 : Rat) ^ 1024 ≤ (m : Rat) * (2 : Rat) ^ (max e (-1022) - 52) then .inf false
           else .fin ((m : Rat) * (2 : Rat) ^ (max e (-1022) - 52))) := by
  have hn : 1 ≤ q.num.natAbs := by
    have : 0 < q.num := Rat.num_pos.mpr h0
    omega
  have hd : 1 ≤ q.den := q.den_pos
  obtain ⟨s1, s2⟩ := floorLog2_spec q.num.natAbs q.den hn hd
  rw [natAbs_div_den q h0] at s1 s2
  refine ⟨floorLog2 q.num.natAbs q.den, s1, s2, _, rfl, ?_⟩
  unfold roundToF64 roundMag
  dsimp only
  rw [if_neg h0.ne', scalePow_two]
  have hneg : ¬ q < 0 := not_lt.mpr h0.le
  by_cases hov : (2 : Rat) ^ 1024 ≤
      (roundMant q.num.natAbs q.den (max (floorLog2 q.num.natAbs q.den) (-1022) - 52) : Rat) *
        (2 : Rat) ^ (max (floorLog2 q.num.natAbs q.den) (-1022) - 52)
  · simp [hov, hneg]
  · simp [hov, hneg]

theorem two_zpow_le (a b : Int) (h : a ≤ b) : (2 : Rat) ^ a ≤ (2 : Rat) ^ b :=
  zpow_le_zpow_right₀ (by norm_num) h

theorem lt_of_two_zpow_lt (a b : Int) (h : (2 : Rat) ^ a < (2 : Rat) ^ b) : a < b := by
  by_contra hc
  exact absurd (two_zpow_le b a (by omega)) (not_le.mpr h)

/-- Rounding a positive number below `2 ^ J` gives a finite value, at most `2 ^ J`. -/
theorem roundToF64_pos_le (q : Rat) (J : Int) (h0 : 0 < q) (hq : q < (2 : Rat) ^ J)
    (hJ1 : -1021 ≤ J) (hJ2 : J ≤ 1023) :
    ∃ v : Rat, roundToF64 q = .fin v ∧ 0 ≤ v ∧ v ≤ (2 : Rat) ^ J := by
  obtain ⟨e, s1, s2, m, hm, hr⟩ := roundToF64_pos q h0
  have he : e < J := lt_of_two_zpow_lt e J (lt_of_le_of_lt s1 hq)
  have hE : max e (-1022) + 1 ≤ J := by omega
  have hqE : q < (2 : Rat) ^ (max e (-1022) + 1) :=
    lt_of_lt_of_le s2 (two_zpow_le _ _ (by omega))
  have hmle : m ≤ 2 ^ 53 := by
    rw [hm]
    apply roundMant_le _ _ _ _ q.den_pos
    rw [natAbs_div_den q h0]
    have e1 : ((2 ^ 53 : Nat) : Rat) * (2 : Rat) ^ (max e (-1022) - 52) =
        (2 : Rat) ^ (max e (-1022) + 1) := by
      have : ((2 ^ 53 : Nat) : Rat) = (2 : Rat) ^ (53 : Int) := by norm_num
      rw [this, ← zpow_add₀ (by norm_num : (2 : Rat) ≠ 0)]
      congr 1
      ring
    rw [e1]
    exact hqE.le
  have hv : (m : Rat) * (2 : Rat) ^ (max e (-1022) - 52) ≤ (2 : Rat) ^ J := by
    have e1 : ((2 ^ 53 : Nat) : Rat) * (2 : Rat) ^ (max e (-1022) - 52) =
        (2 : Rat) ^ (max e (-1022) + 1) := by
      have : ((2 ^ 53 : Nat) : Rat) = (2 : Rat) ^ (53 : Int) := by norm_num
      rw [this, ← zpow_add₀ (by norm_num : (2 : Rat) ≠ 0)]
      congr 1
      ring
    calc (m : Rat) * (2 : Rat) ^ (max e (-1022) - 52)
        ≤ ((2 ^ 53 : Nat) : Rat) * (2 : Rat) ^ (max e (-1022) - 52) :=
          mul_le_mul_of_nonneg_right (by exact_mod_cast hmle) (two_zpow_pos _).le
      _ = (2 : Rat) ^ (max e (-1022) + 1) := e1
      _ ≤ (2 : Rat) ^ J := two_zpow_le _ _ hE
  have hno : ¬ (2 : Rat) ^ 1024 ≤ (m : Rat) * (2 : Rat) ^ (max e (-1022) - 52) := by
    intro hc
    have h1 : (2 : Rat) ^ (1024 : Int) ≤ (2 : Rat) ^ J := by
      have : (2 : Rat) ^ (1024 : Int) = (2 : Rat) ^ 1024 := by norm_num
      rw [this]; exact le_trans hc hv
    have h2 : (2 : Rat) ^ J < (2 : Rat) ^ (1024 : Int) :=
      zpow_lt_zpow_right₀ (by norm_num) (by omega)
    exact absurd h1 (not_le.mpr h2)
  rw [if_neg hno] at hr
  exact ⟨_, hr, mul_nonneg (Nat.cast_nonneg m) (two_zpow_pos _).le, hv⟩

/-! ## The total of the blocks -/

theorem step_from_zero (f : Int → Int) (hf : ∀ p k, f (wrapInt (p + k)) = wrapInt (f p + k))
    (p : Int) : f (wrapInt p) = wrapInt (p + f 0) := by
  have h := hf 0 p
  rw [Int.zero_add] at h
  rw [h, Int.add_comm]

theorem foldl_itemStep_sum (arch : Arch) (items : List Item) (p : Int) :
    items.foldl (itemStep arch) (wrapInt p) =
      wrapInt (p + (items.map (itemStep arch 0)).sum) := by
  induction items generalizing p with
  | nil => simp
  | cons item rest ih =>
    simp only [List.foldl_cons, List.map_cons, List.sum_cons]
    rw [step_from_zero (fun x => itemStep arch x item)
      (fun a b => itemStep_shift arch item a b) p, ih]
    congr 1
    ring

/-- The result of `calculatePoints` is the exact sum of what its blocks add, reduced
into the range of `int`. -/
theorem calculatePoints_eq_wrap (arch : Arch) (r : Receipt) :
    calculatePoints arch r = wrapInt (rawPoints arch r) := by
  unfold calculatePoints rawPoints
  dsimp only
  have h1 : retailerStep r 0 = wrapInt ((FindAllString r.Retailer).length : Int) := by
    unfold retailerStep addInt
    dsimp only
    rw [Int.zero_add]
  have h4 : ∀ p, itemPairStep r (wrapInt p) =
      wrapInt (p + ((r.Items.length / 2 : Nat) : Int) * 5) := by
    intro p
    unfold itemPairStep addInt
    dsimp only
    rw [wrapInt_add_left]
  rw [h1, step_from_zero _ (roundDollarStep_shift arch r),
    step_from_zero _ (quarterStep_shift arch r), h4]
  unfold descriptionStep
  rw [foldl_itemStep_sum, step_from_zero _ (oddDayStep_shift r),
    step_from_zero _ (afternoonStep_shift r)]

/-! ## Non-negative points -/

theorem roundToF64_fifth :
    roundToF64 (1 / 5) = .fin (3602879701896397 / 18014398509481984) := by
  decide!

theorem truncInt_intCast (z : Int) (hz : inIntRange z) :
    (Float64.fin (z : Rat)).truncInt = some z := by
  unfold Float64.truncInt
  dsimp only
  have e : (if (0 : Rat) ≤ (z : Rat) then ⌊(z : Rat)⌋ else ⌈(z : Rat)⌉) = z := by
    split <;> simp
  rw [e, if_pos hz]

theorem itemPoints_of_priceInRange (arch : Arch) (price : String)
    (h : priceInRange price) :
    0 ≤ itemPoints arch price ∧ itemPoints arch price ≤ 2 ^ 62 := by
  obtain ⟨q, hq, h0, h1⟩ : ∃ q : Rat, (ParseFloat price).1 = .fin q ∧ 0 ≤ q ∧ q ≤ 2 ^ 64 := by
    unfold priceInRange at h
    cases hf : (ParseFloat price).1 with
    | nan => rw [hf] at h; exact h.elim
    | inf neg => rw [hf] at h; exact h.elim
    | fin q => rw [hf] at h; exact ⟨q, rfl, h⟩
  rcases eq_or_lt_of_le h0 with hz | hpos
  · rw [← hz] at hq
    rw [itemPoints_of_zero arch price hq]
    constructor <;> norm_num
  · have hx0 : 0 < q * (3602879701896397 / 18014398509481984) := by positivity
    have hx1 : q * (3602879701896397 / 18014398509481984) < (2 : Rat) ^ (62 : Int) := by
      have : (2 : Rat) ^ (62 : Int) = 2 ^ 62 := by norm_num
      rw [this]
      nlinarith
    obtain ⟨v, hv, hv0, hv1⟩ := roundToF64_pos_le _ 62 hx0 hx1 (by norm_num) (by norm_num)
    have hv2 : v ≤ ((2 ^ 62 : Int) : Rat) := by
      have : (2 : Rat) ^ (62 : Int) = ((2 ^ 62 : Int) : Rat) := by norm_num
      rw [← this]; exact hv1
    have hc0 : 0 ≤ ⌈v⌉ := Int.ceil_nonneg hv0
    have hc1 : ⌈v⌉ ≤ 2 ^ 62 := Int.ceil_le.mpr hv2
    have hp : itemPoints arch price = ⌈v⌉ := by
      unfold itemPoints
      dsimp only
      rw [hq, roundToF64_fifth]
      show (Ceil (roundToF64 (q * (3602879701896397 / 18014398509481984)))).toInt arch = ⌈v⌉
      rw [hv]
      exact toInt_of_truncInt arch _ _ (truncInt_intCast _ (by
        unfold inIntRange; constructor <;> omega))
    rw [hp]
    exact ⟨hc0, hc1⟩

theorem itemStep_zero_nonneg (arch : Arch) (item : Item) (h : priceInRange item.Price) :
    0 ≤ itemStep arch 0 item := by
  obtain ⟨h0, h1⟩ := itemPoints_of_priceInRange arch item.Price h
  unfold itemStep
  dsimp only
  split
  · unfold addInt
    rw [Int.zero_add, wrapInt_of_inIntRange _ (by unfold inIntRange; constructor <;> omega)]
    exact h0
  · exact le_refl 0

theorem sum_itemStep_nonneg (arch : Arch) (items : List Item)
    (h : ∀ item ∈ items, priceInRange item.Price) :
    0 ≤ (items.map (itemStep arch 0)).sum := by
  apply List.sum_nonneg
  intro x hx
  obtain ⟨item, hi, rfl⟩ := List.mem_map.mp hx
  exact itemStep_zero_nonneg arch item (h item hi)

theorem bonus_nonneg (c : Prop) [Decidable c] (b : Int) (hb0 : 0 ≤ b) (hb : b < 2 ^ 63) :
    0 ≤ (if c then addInt 0 b else 0) := by
  split
  · unfold addInt
    rw [Int.zero_add, wrapInt_of_inIntRange _ (by unfold inIntRange; constructor <;> omega)]
    exact hb0
  · exact le_refl 0

/-- C8, amended. For every receipt whose item prices each parse to a finite value from
0 to `2 ^ 64` (a price with a syntax error counts as 0) and whose exact sum of rule
contributions is below `2 ^ 63` (no overflow of `int`), `calculatePoints` returns that
sum, and it is greater than or equal to 0. -/
theorem C8_non_negative (arch : Arch) (r : Receipt)
    (hprice : ∀ item ∈ r.Items, priceInRange item.Price)
    (hsum : rawPoints arch r < 2 ^ 63) :
    0 ≤ calculatePoints arch r ∧ calculatePoints arch r = rawPoints arch r := by
  have h0 : 0 ≤ rawPoints arch r := by
    unfold rawPoints
    have a1 : (0 : Int) ≤ ((FindAllString r.Retailer).length : Int) := Int.natCast_nonneg _
    have a2 : 0 ≤ roundDollarStep arch r 0 := by
      unfold roundDollarStep; exact bonus_nonneg _ 50 (by norm_num) (by norm_num)
    have a3 : 0 ≤ quarterStep arch r 0 := by
      unfold quarterStep; exact bonus_nonneg _ 25 (by norm_num) (by norm_num)
    have a4 : (0 : Int) ≤ ((r.Items.length / 2 : Nat) : Int) * 5 := by positivity
    have a5 := sum_itemStep_nonneg arch r.Items hprice
    have a6 : 0 ≤ oddDayStep r 0 := by
      unfold oddDayStep; exact bonus_nonneg _ 6 (by norm_num) (by norm_num)
    have a7 : 0 ≤ afternoonStep r 0 := by
      unfold afternoonStep; exact bonus_nonneg _ 10 (by norm_num) (by norm_num)
    linarith
  have e : calculatePoints arch r = rawPoints arch r := by
    rw [calculatePoints_eq_wrap]
    exact wrapInt_of_inIntRange _ (by unfold inIntRange; constructor <;> omega)
  rw [e]
  exact ⟨h0, rfl⟩

/-- Witness of C8: the second example receipt is worth 109 points. -/
theorem C8_non_negative_witness :
    (∀ item ∈ cornerMarketReceipt.Items, priceInRange item.Price) ∧
      rawPoints amd64 cornerMarketReceipt < 2 ^ 63 ∧
      0 ≤ calculatePoints amd64 cornerMarketReceipt ∧
      calculatePoints amd64 cornerMarketReceipt = 109 :=
  ⟨by decide!, by decide!,
    (C8_non_negative amd64 cornerMarketReceipt (by decide!) (by decide!)).1,
    ((C8_non_negative amd64 cornerMarketReceipt (by decide!) (by decide!)).2).trans
      (by decide!)⟩

/-- C8 as stated fails: an item with a negative price contributes a negative number of
points, and the receipt below scores -20. -/
theorem C8_non_negative_counterexample :
    calculatePoints amd64 ⟨"", "2022-01-02", "13:00", "1.10", [⟨"abc", "-100.00"⟩]⟩ = -20 ∧
      ¬ (0 ≤ calculatePoints amd64
        ⟨"", "2022-01-02", "13:00", "1.10", [⟨"abc", "-100.00"⟩]⟩) := by
  decide!

/-! ## The total bonuses -/

theorem roundToF64_neg_ne (q p : Rat) (hq : q < 0) (hp : 0 < p) : roundToF64 q ≠ .fin p := by
  unfold roundToF64
  rw [if_neg hq.ne]
  cases h : roundMag q.num.natAbs q.den with
  | none => simp
  | some v =>
    have hv : 0 ≤ v := by
      unfold roundMag at h
      dsimp only at h
      split at h
      · simp at h
      · simp only [Option.some.injEq] at h
        rw [← h, scalePow_two]
        exact mul_nonneg (Nat.cast_nonneg _) (two_zpow_pos _).le
    simp only [hq, if_true, ne_eq, Float64.fin.injEq]
    intro hc
    linarith

/-- The `float64` of an `int` is never `10 ^ 19`. -/
theorem ofInt_ne_ten19 (z : Int) (hz : inIntRange z) : Float64.ofInt z ≠ .fin (10 ^ 19) := by
  unfold Float64.ofInt
  obtain ⟨h1, h2⟩ := hz
  rcases lt_trichotomy z 0 with hneg | hzero | hpos
  · exact roundToF64_neg_ne _ _ (by exact_mod_cast hneg) (by norm_num)
  · rw [hzero]
    have : roundToF64 ((0 : Int) : Rat) = .fin 0 := by decide!
    rw [this]
    simp only [ne_eq, Float64.fin.injEq]
    norm_num
  · have hq : ((z : Int) : Rat) < (2 : Rat) ^ (63 : Int) := by
      have : (2 : Rat) ^ (63 : Int) = ((2 ^ 63 : Int) : Rat) := by norm_num
      rw [this]
      exact_mod_cast h2
    obtain ⟨v, hv, hv0, hv1⟩ :=
      roundToF64_pos_le _ 63 (by exact_mod_cast hpos) hq (by norm_num) (by norm_num)
    rw [hv]
    simp only [ne_eq, Float64.fin.injEq]
    intro hc
    rw [hc] at hv1
    norm_num at hv1

theorem toInt_inIntRange (arch : Arch) (f : Float64) : inIntRange (f.toInt arch) := by
  unfold Float64.toInt
  cases h : f.truncInt with
  | none => exact inIntRange_wrapInt _
  | some t =>
    dsimp only
    unfold Float64.truncInt at h
    cases f with
    | nan => simp at h
    | inf neg => simp at h
    | fin q =>
      dsimp only at h
      by_cases hr : inIntRange (if 0 ≤ q then ⌊q⌋ else ⌈q⌉)
      · rw [if_pos hr] at h
        simp only [Option.some.injEq] at h
        rw [← h]; exact hr
      · rw [if_neg hr] at h
        simp at h

/-- C2. The code contradicts the claim for large totals: the total
"10000000000000000000" parses without error to the whole number `10 ^ 19`, which is
outside the range of `int`, so `float64(int(total))` differs from it on every
implementation and the round-dollar block adds nothing. Within the range the block
behaves as claimed on the examples: "35.00" earns the 50 points and "35.05" does not. -/
theorem C2_round_dollar_large_total (arch : Arch) (r : Receipt) (points : Int) :
    ParseFloat "10000000000000000000" = (.fin (10 ^ 19), none) ∧
      roundDollarStep arch (withTotal r "10000000000000000000") points = points ∧
      roundDollarStep arch (withTotal r "35.00") points = addInt points 50 ∧
      roundDollarStep arch (withTotal r "35.05") points = points := by
  have hp : ParseFloat "10000000000000000000" = (.fin (10 ^ 19), none) := by decide!
  refine ⟨hp, ?_, ?_, ?_⟩
  · unfold roundDollarStep withTotal
    dsimp only
    rw [hp]
    dsimp only
    have hne := ofInt_ne_ten19 _ (toInt_inIntRange arch (.fin (10 ^ 19)))
    cases hc : Float64.ofInt (Float64.toInt arch (Float64.fin (10 ^ 19))) with
    | nan => rfl
    | inf neg => rfl
    | fin q =>
      rw [hc] at hne
      have hq : ¬ ((10 : Rat) ^ 19 = q) := fun h => hne (by rw [h])
      simp [Float64.eq, hq]
  · unfold roundDollarStep withTotal
    dsimp only
    rw [toInt_of_truncInt arch (ParseFloat "35.00").1 35 (by decide!)]
    exact if_pos (by decide!)
  · unfold roundDollarStep withTotal
    dsimp only
    rw [toInt_of_truncInt arch (ParseFloat "35.05").1 35 (by decide!)]
    exact if_neg (by decide!)

/-- C3. The code contradicts the claim: `int(total*100)` truncates, so a total whose
hundredfold is not an integer multiple of 25 but truncates to one earns the 25 points.
The total "2.01" does (its product with 100 is rounded to 200.99999999999997, truncated
to 200), and so does "0.001" (0.1 truncated to 0); neither is a multiple of 0.25. The
total "35.05" earns nothing, as claimed. -/
theorem C3_quarter_truncation (arch : Arch) (r : Receipt) (points : Int) :
    quarterStep arch (withTotal r "2.01") points = addInt points 25 ∧
      quarterStep arch (withTotal r "0.001") points = addInt points 25 ∧
      quarterStep arch (withTotal r "35.05") points = points ∧
      ((ParseFloat "2.01").1.mul (.fin 100)) = .fin (201 - 1 / 2 ^ 45) ∧
      addInt points 25 ≠ points := by
  refine ⟨?_, ?_, ?_, by decide!, addInt_ne_self points 25 (by decide) (by decide)⟩
  · unfold quarterStep withTotal
    dsimp only
    rw [toInt_of_truncInt arch ((ParseFloat "2.01").1.mul (.fin 100)) 200 (by decide!)]
    exact if_pos (by decide)
  · unfold quarterStep withTotal
    dsimp only
    rw [toInt_of_truncInt arch ((ParseFloat "0.001").1.mul (.fin 100)) 0 (by decide!)]
    exact if_pos (by decide)
  · unfold quarterStep withTotal
    dsimp only
    rw [toInt_of_truncInt arch ((ParseFloat "35.05").1.mul (.fin 100)) 3504 (by decide!)]
    exact if_neg (by decide)

/-! ## Prices written with two decimals -/

theorem digitChar_facts : ∀ d : Fin 10,
    digitChar d.val ≠ '_' ∧ digitChar d.val ≠ '.' ∧ isDigit (digitChar d.val) = true ∧
      digitVal (digitChar d.val) = d.val ∧ (digitChar d.val = '0' ↔ d.val = 0) ∧
      digitChar d.val ≠ '+' ∧ digitChar d.val ≠ '-' ∧ digitChar d.val ≠ 'i' ∧
      digitChar d.val ≠ 'I' ∧ digitChar d.val ≠ 'n' ∧ digitChar d.val ≠ 'N' ∧
      lower (digitChar d.val) ≠ 120 := by
  decide

theorem readDigits_digit (c : Char) (cs : List Char) (st : Digits)
    (h1 : c ≠ '_') (h2 : c ≠ '.') (h3 : isDigit c = true) :
    readDigits false (c :: cs) st =
      if c = '0' ∧ st.nd = 0 then
        readDigits false cs { st with sawdigits := true, dp := st.dp - 1 }
      else
        readDigits false cs { st with
          sawdigits := true, nd := st.nd + 1, mantissa := st.mantissa * 10 + digitVal c } := by
  rw [readDigits, if_neg h1, if_neg h2, if_pos h3]
  simp

theorem readDigits_digitChars (cs : List (Fin 10)) (rest : List Char) (st : Digits)
    (hinv : st.nd = 0 → st.mantissa = 0) :
    ∃ st1 : Digits, readDigits false (digitChars cs ++ rest) st = readDigits false rest st1 ∧
      st1.mantissa = digitsValue st.mantissa cs ∧ st1.sawdot = st.sawdot ∧
      st1.underscores = st.underscores ∧ (cs ≠ [] → st1.sawdigits = true) ∧
      (st1.dp - (st1.nd : Int) = st.dp - (st.nd : Int) - (cs.length : Int)) ∧
      (st1.nd = 0 → st1.mantissa = 0) ∧ (st.sawdigits = true → st1.sawdigits = true) := by
  induction cs generalizing st with
  | nil =>
    exact ⟨st, rfl, rfl, rfl, rfl, fun h => absurd rfl h, by simp, hinv, id⟩
  | cons d cs ih =>
    obtain ⟨h1, h2, h3, h4, h5, -⟩ := digitChar_facts d
    have estep := readDigits_digit (digitChar d.val) (digitChars cs ++ rest) st h1 h2 h3
    have elist : digitChars (d :: cs) ++ rest = digitChar d.val :: (digitChars cs ++ rest) := rfl
    rw [elist, estep]
    by_cases hz : d.val = 0 ∧ st.nd = 0
    · have hc : digitChar d.val = '0' ∧ st.nd = 0 := ⟨h5.mpr hz.1, hz.2⟩
      rw [if_pos hc]
      obtain ⟨st1, e, hm, hs, hu, -, hdp, hi, hsd⟩ :=
        ih { st with sawdigits := true, dp := st.dp - 1 } hinv
      refine ⟨st1, e, ?_, hs, hu, fun _ => hsd rfl, ?_, hi, fun _ => hsd rfl⟩
      · rw [hm]
        simp only [digitsValue, List.foldl_cons]
        rw [hinv hz.2, hz.1]
      · rw [hdp]
        simp only [List.length_cons]
        push_cast
        ring
    · have hc : ¬ (digitChar d.val = '0' ∧ st.nd = 0) := fun h => hz ⟨h5.mp h.1, h.2⟩
      rw [if_neg hc]
      obtain ⟨st1, e, hm, hs, hu, -, hdp, hi, hsd⟩ :=
        ih { st with sawdigits := true, nd := st.nd + 1,
                     mantissa := st.mantissa * 10 + digitVal (digitChar d.val) }
          (fun h => absurd h (Nat.succ_ne_zero _))
      refine ⟨st1, e, ?_, hs, hu, fun _ => hsd rfl, ?_, hi, fun _ => hsd rfl⟩
      · rw [hm, h4]
        simp only [digitsValue, List.foldl_cons]
      · rw [hdp]
        simp only [List.length_cons]
        push_cast
        ring

theorem hasHexPrefix_false (c0 c1 : Char) (t : List Char) (h : lower c1 ≠ 120) :
    hasHexPrefix (c0 :: c1 :: t) = false := by
  cases t <;> simp [hasHexPrefix, h]

/-- What the digit loop of `readFloat` finds in a price text. -/
theorem readDigits_priceText (ds : List (Fin 10)) (a b : Fin 10) :
    ∃ st : Digits, readDigits false (priceText ds a b).data ⟨0, 0, 0, false, false, false⟩ =
        (st, []) ∧
      st.mantissa = priceCents ds a b ∧ st.sawdot = true ∧ st.underscores = false ∧
      st.sawdigits = true ∧ st.dp - (st.nd : Int) = -2 := by
  obtain ⟨st1, e1, m1, s1, u1, g1, p1, i1, -⟩ :=
    readDigits_digitChars ds ['.', digitChar a.val, digitChar b.val]
      ⟨0, 0, 0, false, false, false⟩ (fun _ => rfl)
  have hdot : readDigits false ['.', digitChar a.val, digitChar b.val] st1 =
      readDigits false (digitChars [a, b] ++ []) { st1 with sawdot := true, dp := st1.nd } := by
    rw [readDigits, if_neg (by decide), if_pos rfl]
    simp only [s1]
    rfl
  obtain ⟨st2, e2, m2, s2, u2, g2, p2, i2, -⟩ :=
    readDigits_digitChars [a, b] [] { st1 with sawdot := true, dp := st1.nd } i1
  refine ⟨st2, ?_, ?_, ?_, ?_, ?_, ?_⟩
  · show readDigits false (digitChars ds ++ ['.', digitChar a.val, digitChar b.val]) _ = _
    rw [e1, hdot, e2]
    rfl
  · rw [m2]
    simp only [m1, digitsValue, List.foldl_cons, List.foldl_nil, priceCents]
    ring
  · rw [s2]
  · rw [u2]; exact u1
  · exact g2 (by simp)
  · rw [p2]
    simp

theorem special_digit (c : Char) (t : List Char) (h1 : c ≠ '+') (h2 : c ≠ '-')
    (h3 : c ≠ 'i') (h4 : c ≠ 'I') (h5 : c ≠ 'n') (h6 : c ≠ 'N') :
    special (c :: t) = none := by
  simp [special, h1, h2, h3, h4, h5, h6]

theorem readFloat_priceText (ds : List (Fin 10)) (a b : Fin 10) (hne : ds ≠ []) :
    ∃ lit : FloatLit, readFloat (priceText ds a b).data = some (lit, []) ∧
      lit.value = (priceCents ds a b : Rat) / 100 := by
  obtain ⟨st, hst, hm, hs, hu, hg, hp⟩ := readDigits_priceText ds a b
  obtain ⟨d0, ds1, rfl⟩ := List.exists_cons_of_ne_nil hne
  obtain ⟨-, -, -, -, -, f1, f2, -⟩ := digitChar_facts d0
  have hshape : ∃ c1 t, (priceText (d0 :: ds1) a b).data = digitChar d0.val :: c1 :: t ∧
      lower c1 ≠ 120 := by
    cases ds1 with
    | nil => exact ⟨'.', _, rfl, by decide⟩
    | cons d1 ds2 => exact ⟨digitChar d1.val, _, rfl, (digitChar_facts d1).2.2.2.2.2.2.2.2.2.2.2⟩
  obtain ⟨c1, t, hdata, hc1⟩ := hshape
  have hhex := hasHexPrefix_false (digitChar d0.val) c1 t hc1
  rw [hdata] at hst ⊢
  unfold readFloat
  simp only [f1, f2, or_self, if_false, hhex, Bool.false_eq_true, hst, hg, hs, hu,
    Bool.not_true, if_true, readFloatEnd, false_and, decide_False]
  refine ⟨_, rfl, ?_⟩
  unfold FloatLit.value
  simp only [Bool.false_eq_true, if_false]
  rw [hm]
  by_cases h0 : priceCents (d0 :: ds1) a b = 0
  · rw [h0]
    simp [scalePow]
  · rw [if_pos h0, hp]
    unfold scalePow
    have e : (-(-2 : Int)).toNat = 2 := rfl
    rw [if_neg (by decide), Rat.mkRat_eq_div, e]
    norm_num

theorem ParseFloat_priceText (ds : List (Fin 10)) (a b : Fin 10) (hne : ds ≠ []) :
    (ParseFloat (priceText ds a b)).1 = roundToF64 ((priceCents ds a b : Rat) / 100) := by
  obtain ⟨lit, hlit, hval⟩ := readFloat_priceText ds a b hne
  obtain ⟨d0, ds1, rfl⟩ := List.exists_cons_of_ne_nil hne
  obtain ⟨-, -, -, -, -, f1, f2, f3, f4, f5, f6, -⟩ := digitChar_facts d0
  have hsp : special (priceText (d0 :: ds1) a b).data = none :=
    special_digit _ _ f1 f2 f3 f4 f5 f6
  unfold ParseFloat atof64
  rw [hsp, hlit]
  dsimp only
  rw [hval]
  cases roundToF64 ((priceCents (d0 :: ds1) a b : Rat) / 100) <;> simp

/-- Rounding a number of the normal range moves it by at most the fraction `2 ^ -53`
of itself. -/
theorem roundToF64_rel_err (q : Rat) (hlo : (2 : Rat) ^ (-1022 : Int) ≤ q)
    (hhi : q < (2 : Rat) ^ (1023 : Int)) :
    ∃ v : Rat, roundToF64 q = .fin v ∧ |v - q| ≤ q / 2 ^ 53 := by
  have h0 : 0 < q := lt_of_lt_of_le (two_zpow_pos _) hlo
  obtain ⟨e, s1, s2, m, hm, hr⟩ := roundToF64_pos q h0
  obtain ⟨v, hv, -, -⟩ := roundToF64_pos_le q 1023 h0 hhi (by norm_num) (by norm_num)
  have he : -1022 ≤ e := by
    have := lt_of_two_zpow_lt _ _ (lt_of_le_of_lt hlo s2)
    omega
  have hmax : max e (-1022) = e := max_eq_left he
  rw [hmax] at hm hr
  have hvm : v = (m : Rat) * (2 : Rat) ^ (e - 52) := by
    rw [hv] at hr
    split at hr
    · simp at hr
    · simpa using hr
  refine ⟨v, hv, ?_⟩
  have herr := roundMant_err q.num.natAbs q.den (e - 52) q.den_pos
  rw [natAbs_div_den q h0, ← hm, ← hvm] at herr
  have e1 : (2 : Rat) ^ (e - 52) / 2 = (2 : Rat) ^ e / 2 ^ 53 := by
    rw [zpow_sub₀ (by norm_num : (2 : Rat) ≠ 0)]
    norm_num
    ring
  rw [e1] at herr
  calc |v - q| ≤ (2 : Rat) ^ e / 2 ^ 53 := herr
    _ ≤ q / 2 ^ 53 := by
      apply div_le_div_of_nonneg_right s1
      positivity

/-- A natural number below `2 ^ 53`, increased by at most the fraction `2 ^ -54` of
itself, rounds to that natural number. -/
theorem roundToF64_near_nat (K : Nat) (δ : Rat) (hK : 0 < K) (hδ0 : 0 ≤ δ)
    (hδ : δ ≤ 1 / 2 ^ 54) (hlt : (K : Rat) * (1 + δ) < 2 ^ 53) :
    roundToF64 ((K : Rat) * (1 + δ)) = .fin K := by
  have hKq : (1 : Rat) ≤ (K : Rat) := by exact_mod_cast hK
  have hy0 : 0 < (K : Rat) * (1 + δ) := by positivity
  have hKy : (K : Rat) ≤ (K : Rat) * (1 + δ) := by nlinarith
  obtain ⟨e, s1, s2, m, hm, hr⟩ := roundToF64_pos _ hy0
  have he0 : 0 ≤ e := by
    have h1 : (2 : Rat) ^ (0 : Int) < (2 : Rat) ^ (e + 1) := by
      rw [zpow_zero]
      exact lt_of_le_of_lt (le_trans hKq hKy) s2
    have := lt_of_two_zpow_lt _ _ h1
    omega
  have he52 : e ≤ 52 := by
    have h1 : (2 : Rat) ^ e < (2 : Rat) ^ (53 : Int) := by
      have : (2 : Rat) ^ (53 : Int) = 2 ^ 53 := by norm_num
      rw [this]
      exact lt_of_le_of_lt s1 hlt
    have := lt_of_two_zpow_lt _ _ h1
    omega
  have hmax : max e (-1022) = e := max_eq_left (by omega)
  rw [hmax] at hm hr
  obtain ⟨j, hj⟩ : ∃ j : Nat, (j : Int) = 52 - e := ⟨(52 - e).toNat, by omega⟩
  have hP : (0 : Rat) < (2 : Rat) ^ j := by positivity
  have hk : (2 : Rat) ^ (e - 52) = ((2 : Rat) ^ j)⁻¹ := by
    have : e - 52 = -(j : Int) := by omega
    rw [this, zpow_neg, zpow_natCast]
  have he1 : (2 : Rat) ^ (e + 1) * (2 : Rat) ^ j = 2 ^ 53 := by
    rw [← zpow_natCast (2 : Rat) j, ← zpow_add₀ (by norm_num : (2 : Rat) ≠ 0)]
    have : e + 1 + (j : Int) = (53 : Nat) := by omega
    rw [this, zpow_natCast]
  have herr := roundMant_err ((K : Rat) * (1 + δ)).num.natAbs ((K : Rat) * (1 + δ)).den
    (e - 52) (Rat.den_pos _)
  rw [natAbs_div_den _ hy0, ← hm, hk, abs_le] at herr
  obtain ⟨l1, l2⟩ := herr
  -- scale by 2 ^ j
  have hyP : (K : Rat) * (1 + δ) * (2 : Rat) ^ j < 2 ^ 53 := by
    rw [← he1]
    exact mul_lt_mul_of_pos_right s2 hP
  have hM : ((K * 2 ^ j : Nat) : Rat) = (K : Rat) * (2 : Rat) ^ j := by push_cast; ring
  have hMlt : (K : Rat) * (2 : Rat) ^ j < 2 ^ 53 := by
    have : (K : Rat) * (2 : Rat) ^ j ≤ (K : Rat) * (1 + δ) * (2 : Rat) ^ j :=
      mul_le_mul_of_nonneg_right hKy hP.le
    linarith
  have hMδ : (K : Rat) * (2 : Rat) ^ j * δ < 1 / 2 := by
    have h1 : (K : Rat) * (2 : Rat) ^ j * δ ≤ (K : Rat) * (2 : Rat) ^ j * (1 / 2 ^ 54) :=
      mul_le_mul_of_nonneg_left hδ (by positivity)
    have h2 : (K : Rat) * (2 : Rat) ^ j * (1 / 2 ^ 54) < 2 ^ 53 * (1 / 2 ^ 54) :=
      mul_lt_mul_of_pos_right hMlt (by positivity)
    have h3 : (2 : Rat) ^ 53 * (1 / 2 ^ 54) = 1 / 2 := by norm_num
    linarith
  have hMδ0 : 0 ≤ (K : Rat) * (2 : Rat) ^ j * δ := by positivity
  have hQ : ((2 : Rat) ^ j)⁻¹ * (2 : Rat) ^ j = 1 := inv_mul_cancel₀ hP.ne'
  have t2 : (m : Rat) - (K : Rat) * (1 + δ) * (2 : Rat) ^ j ≤ 1 / 2 := by
    have h := mul_le_mul_of_nonneg_right l2 hP.le
    have e1 : ((m : Rat) * ((2 : Rat) ^ j)⁻¹ - (K : Rat) * (1 + δ)) * (2 : Rat) ^ j =
        (m : Rat) * (((2 : Rat) ^ j)⁻¹ * (2 : Rat) ^ j) - (K : Rat) * (1 + δ) * (2 : Rat) ^ j := by
      ring
    have e2 : ((2 : Rat) ^ j)⁻¹ / 2 * (2 : Rat) ^ j = (((2 : Rat) ^ j)⁻¹ * (2 : Rat) ^ j) / 2 := by
      ring
    rw [e1, e2, hQ, mul_one] at h
    exact h
  have t1 : -(1 / 2) ≤ (m : Rat) - (K : Rat) * (1 + δ) * (2 : Rat) ^ j := by
    have h := mul_le_mul_of_nonneg_right l1 hP.le
    have e1 : ((m : Rat) * ((2 : Rat) ^ j)⁻¹ - (K : Rat) * (1 + δ)) * (2 : Rat) ^ j =
        (m : Rat) * (((2 : Rat) ^ j)⁻¹ * (2 : Rat) ^ j) - (K : Rat) * (1 + δ) * (2 : Rat) ^ j := by
      ring
    have e2 : -(((2 : Rat) ^ j)⁻¹ / 2) * (2 : Rat) ^ j =
        -((((2 : Rat) ^ j)⁻¹ * (2 : Rat) ^ j) / 2) := by
      ring
    rw [e1, e2, hQ, mul_one] at h
    exact h
  have e3 : (K : Rat) * (1 + δ) * (2 : Rat) ^ j =
      (K : Rat) * (2 : Rat) ^ j + (K : Rat) * (2 : Rat) ^ j * δ := by ring
  rw [e3] at t1 t2
  have m1 : (m : Rat) - (K : Rat) * (2 : Rat) ^ j < 1 := by linarith
  have m2 : -1 < (m : Rat) - (K : Rat) * (2 : Rat) ^ j := by linarith
  have hmM : m = K * 2 ^ j := by
    rw [← hM] at m1 m2
    have a1 : (m : Int) - ((K * 2 ^ j : Nat) : Int) < 1 := by exact_mod_cast m1
    have a2 : -1 < (m : Int) - ((K * 2 ^ j : Nat) : Int) := by exact_mod_cast m2
    omega
  have hval : (m : Rat) * (2 : Rat) ^ (e - 52) = K := by
    rw [hmM, hM, hk]
    field_simp
  rw [hval] at hr
  rw [hr, if_neg]
  intro hc
  have : (K : Rat) < 2 ^ 53 := lt_of_le_of_lt hKy hlt
  have h2 : (2 : Rat) ^ 53 < 2 ^ 1024 := by norm_num
  linarith

theorem roundToF64_nat (K : Nat) (hK : K < 2 ^ 53) : roundToF64 (K : Rat) = .fin K := by
  rcases Nat.eq_zero_or_pos K with h0 | hpos
  · rw [h0]
    decide!
  · have h := roundToF64_near_nat K 0 hpos (le_refl 0) (by positivity)
      (by rw [add_zero, mul_one]; exact_mod_cast hK)
    rwa [add_zero, mul_one] at h

theorem mul_fin_fin (p q : Rat) : (Float64.fin p).mul (.fin q) = roundToF64 (p * q) := rfl

theorem toInt_Ceil_fin (arch : Arch) (w : Rat) (z : Int) (hz : ⌈w⌉ = z) (hr : inIntRange z) :
    (Ceil (.fin w)).toInt arch = z := by
  show (Float64.fin ((⌈w⌉ : Int) : Rat)).toInt arch = z
  rw [hz]
  exact toInt_of_truncInt arch _ _ (truncInt_intCast z hr)

/-- The points of a price of a whole multiple of five currency units. -/
theorem itemPoints_cents_exact (arch : Arch) (K : Nat) (hK : K < 2 * 10 ^ 12)
    (f : Float64) (hf : f = roundToF64 (((500 * K : Nat) : Rat) / 100)) :
    (Ceil (f.mul (.fin (3602879701896397 / 18014398509481984)))).toInt arch = K := by
  have hx : ((500 * K : Nat) : Rat) / 100 = ((5 * K : Nat) : Rat) := by
    push_cast; ring
  rw [hf, hx, roundToF64_nat (5 * K) (by norm_num; omega), mul_fin_fin]
  rcases Nat.eq_zero_or_pos K with h0 | hpos
  · rw [h0]
    exact toInt_of_truncInt arch _ _ (by decide!)
  · have e : ((5 * K : Nat) : Rat) * (3602879701896397 / 18014398509481984) =
        (K : Rat) * (1 + 1 / 2 ^ 54) := by
      push_cast; ring
    have hKq : (K : Rat) < 2 * 10 ^ 12 := by exact_mod_cast hK
    rw [e, roundToF64_near_nat K (1 / 2 ^ 54) hpos (by positivity) (le_refl _)
      (by norm_num; nlinarith)]
    exact toInt_Ceil_fin arch _ _ (Int.ceil_natCast K)
      (by unfold inIntRange; constructor <;> omega)

theorem normal_range (q : Rat) (h1 : 1 / 1024 ≤ q) (h2 : q < 2 ^ 50) :
    (2 : Rat) ^ (-1022 : Int) ≤ q ∧ q < (2 : Rat) ^ (1023 : Int) := by
  constructor
  · have a : (2 : Rat) ^ (-1022 : Int) ≤ (2 : Rat) ^ (-10 : Int) := two_zpow_le _ _ (by norm_num)
    have b : (2 : Rat) ^ (-10 : Int) = 1 / 1024 := by norm_num
    rw [b] at a
    exact le_trans a h1
  · have a : (2 : Rat) ^ (50 : Int) ≤ (2 : Rat) ^ (1023 : Int) := two_zpow_le _ _ (by norm_num)
    have b : (2 : Rat) ^ (50 : Int) = 2 ^ 50 := by norm_num
    rw [b] at a
    exact lt_of_lt_of_le h2 a

/-- The points of a price that is not a whole multiple of five currency units. -/
theorem itemPoints_cents_inexact (arch : Arch) (K r : Nat) (hr1 : 1 ≤ r) (hr2 : r ≤ 499)
    (hN : 500 * K + r < 10 ^ 15)
    (f : Float64) (hf : f = roundToF64 (((500 * K + r : Nat) : Rat) / 100)) :
    (Ceil (f.mul (.fin (3602879701896397 / 18014398509481984)))).toInt arch = K + 1 := by
  have hK0 : (0 : Rat) ≤ (K : Rat) := Nat.cast_nonneg K
  have hr1q : (1 : Rat) ≤ (r : Rat) := by exact_mod_cast hr1
  have hr2q : (r : Rat) ≤ 499 := by exact_mod_cast hr2
  have hNq : 500 * (K : Rat) + (r : Rat) < 10 ^ 15 := by exact_mod_cast hN
  have hx : ((500 * K + r : Nat) : Rat) / 100 = 5 * (K : Rat) + (r : Rat) / 100 := by
    push_cast; ring
  rw [hx] at hf
  obtain ⟨n1, n2⟩ := normal_range (5 * (K : Rat) + (r : Rat) / 100)
    (by linarith) (by norm_num; linarith)
  obtain ⟨v, hv, herr⟩ := roundToF64_rel_err _ n1 n2
  rw [abs_le] at herr
  obtain ⟨v1, v2⟩ := herr
  rw [hf, hv, mul_fin_fin]
  obtain ⟨n3, n4⟩ := normal_range (v * (3602879701896397 / 18014398509481984))
    (by linarith) (by norm_num; linarith)
  obtain ⟨w, hw, herr2⟩ := roundToF64_rel_err _ n3 n4
  rw [abs_le] at herr2
  obtain ⟨w1, w2⟩ := herr2
  rw [hw]
  have hceil : ⌈w⌉ = (K : Int) + 1 := by
    rw [Int.ceil_eq_iff]
    push_cast
    constructor
    · linarith
    · linarith
  exact toInt_Ceil_fin arch w _ hceil (by unfold inIntRange; constructor <;> omega)

theorem utf8Len_eq_utf8Size (c : Char) : utf8Len c = c.utf8Size := by
  simp only [utf8Len, Char.utf8Size, Char.toNat, UInt32.le_def, BitVec.le_def, UInt32.toNat,
    UInt32.ofNatCore, BitVec.toNat_ofNatLt]
  split_ifs <;> omega

theorem utf8ByteSize_go_eq (l : List Char) : String.utf8ByteSize.go l = len l := by
  induction l with
  | nil => rfl
  | cons c cs ih =>
    simp only [String.utf8ByteSize.go, len, List.map_cons, List.sum_cons] at ih ⊢
    rw [ih, utf8Len_eq_utf8Size]
    omega

/-- The builtin `len` counts the bytes of the UTF-8 encoding. -/
theorem len_eq_utf8ByteSize (s : String) : len s.data = s.utf8ByteSize := by
  cases s with
  | mk l => exact (utf8ByteSize_go_eq l).symm

/-- The points of a price written with two decimals are the ceiling of a fifth of it. -/
theorem itemPoints_priceText (arch : Arch) (ds : List (Fin 10)) (a b : Fin 10) (hne : ds ≠ [])
    (hN : priceCents ds a b < 10 ^ 15) :
    itemPoints arch (priceText ds a b) = ⌈(priceCents ds a b : Rat) / 100 * (1 / 5)⌉ := by
  have hparse := ParseFloat_priceText ds a b hne
  obtain ⟨K, r, hN1, hr⟩ : ∃ K r : Nat, priceCents ds a b = 500 * K + r ∧ r < 500 :=
    ⟨priceCents ds a b / 500, priceCents ds a b % 500, by omega, by omega⟩
  rw [hN1] at hparse hN ⊢
  unfold itemPoints
  dsimp only
  rw [roundToF64_fifth]
  by_cases h0 : r = 0
  · subst h0
    rw [Nat.add_zero] at hparse hN ⊢
    rw [itemPoints_cents_exact arch K (by omega) _ hparse]
    symm
    rw [Int.ceil_eq_iff]
    push_cast
    constructor <;> linarith
  · rw [itemPoints_cents_inexact arch K r (by omega) (by omega) hN _ hparse]
    symm
    rw [Int.ceil_eq_iff]
    have r1 : (1 : Rat) ≤ (r : Rat) := by exact_mod_cast (by omega : 1 ≤ r)
    have r2 : (r : Rat) ≤ 499 := by exact_mod_cast (by omega : r ≤ 499)
    push_cast
    constructor <;> linarith

theorem itemStep_zero_eq (arch : Arch) (item : Item) :
    itemStep arch 0 item =
      (if (String.mk (TrimSpace item.ShortDescription.data)).utf8ByteSize % 3 = 0
        then itemPoints arch item.Price else 0) := by
  unfold itemStep
  dsimp only
  rw [len_eq_utf8ByteSize ⟨TrimSpace item.ShortDescription.data⟩]
  split
  · unfold addInt
    rw [Int.zero_add]
    exact wrapInt_of_inIntRange _ (toInt_inIntRange arch _)
  · rfl

/-- C4, amended. For every receipt, the description block of `calculatePoints` adds, in
the wrapping arithmetic of `int`, for each item whose short description has, after
trimming surrounding white space, a length in bytes of its UTF-8 encoding that is a
multiple of 3 (zero included), exactly `int(math.Ceil(price * 0.2))`, computed in
`float64` on the value the price text parses to, and adds nothing for every other
item; for a price written with digits, a point and two decimals, below `10 ^ 13`, that
amount is exactly the ceiling of the price times 0.2. -/
theorem C4_description_rule (arch : Arch) (r : Receipt) (points : Int)
    (hp : inIntRange points) :
    descriptionStep arch r points =
        wrapInt (points + (r.Items.map (fun item =>
          if (String.mk (TrimSpace item.ShortDescription.data)).utf8ByteSize % 3 = 0
          then itemPoints arch item.Price else 0)).sum) ∧
      (∀ (ds : List (Fin 10)) (a b : Fin 10), ds ≠ [] → priceCents ds a b < 10 ^ 15 →
        itemPoints arch (priceText ds a b) = ⌈(priceCents ds a b : Rat) / 100 * (1 / 5)⌉) := by
  refine ⟨?_, fun ds a b hne hN => itemPoints_priceText arch ds a b hne hN⟩
  unfold descriptionStep
  have h := foldl_itemStep_sum arch r.Items points
  rw [wrapInt_of_inIntRange points hp] at h
  rw [h, funext (itemStep_zero_eq arch)]

/-- Witness of C4: in the first example receipt the items "Emils Cheese Pizza" (18
bytes, price 12.25) and "Klarbrunn 12-PK 12 FL OZ" (24 bytes once trimmed, price 12.00)
earn 3 points each, the other three items none; "12.25" is a price text with two
decimals and its points are the ceiling of 2.45. -/
theorem C4_description_rule_witness :
    inIntRange 0 ∧ priceText [1, 2] 2 5 = "12.25" ∧ priceCents [1, 2] 2 5 < 10 ^ 15 ∧
      descriptionStep amd64 targetReceipt 0 = 6 ∧
      itemPoints amd64 (priceText [1, 2] 2 5) = ⌈((1225 : Nat) : Rat) / 100 * (1 / 5)⌉ ∧
      itemPoints amd64 "12.25" = 3 :=
  ⟨by decide, by decide, by decide,
    ((C4_description_rule amd64 targetReceipt 0 (by decide)).1).trans (by decide!),
    (C4_description_rule amd64 targetReceipt 0 (by decide)).2 [1, 2] 2 5 (by decide) (by decide),
    by decide!⟩

/-- C4 as stated fails for descriptions that are not ASCII: the builtin `len` counts
bytes, not characters. "aé" has 2 characters (not a multiple of 3) but 3 bytes, and the
item earns the 2 points of its price 10.00; "abé" has 3 characters but 4 bytes, and the
item earns nothing. -/
theorem C4_description_rule_counterexample :
    "aé".length = 2 ∧ TrimSpace "aé".data = "aé".data ∧ len "aé".data = 3 ∧
      itemStep amd64 0 ⟨"aé", "10.00"⟩ = 2 ∧
      "abé".length = 3 ∧ TrimSpace "abé".data = "abé".data ∧ len "abé".data = 4 ∧
      itemStep amd64 0 ⟨"abé", "10.00"⟩ = 0 ∧ itemPoints amd64 "10.00" = 2 := by
  decide!

/-! ## The item-pair rule and the order of the items -/

/-- C11. For every receipt with `n` items, the item-pair block of `calculatePoints` adds
`5 * floor(n / 2)` to the points (in the arithmetic of `int`; exactly that number when
the sum is an `int`), and what it adds is the same for every receipt with the same number
of items, whatever their descriptions and prices. -/
theorem C11_item_pair_rule (r : Receipt) (points : Int) :
    itemPairStep r points = addInt points (5 * ((r.Items.length / 2 : Nat) : Int)) ∧
      (inIntRange (points + 5 * ((r.Items.length / 2 : Nat) : Int)) →
        itemPairStep r points = points + 5 * ((r.Items.length / 2 : Nat) : Int)) ∧
      (∀ r2 : Receipt, r2.Items.length = r.Items.length →
        itemPairStep r2 points = itemPairStep r points) := by
  have h : itemPairStep r points = addInt points (5 * ((r.Items.length / 2 : Nat) : Int)) := by
    unfold itemPairStep
    dsimp only
    rw [Int.mul_comm]
  refine ⟨h, ?_, ?_⟩
  · intro hr
    rw [h]
    exact wrapInt_of_inIntRange _ hr
  · intro r2 h2
    unfold itemPairStep
    dsimp only
    rw [h2]

/-- Witness of C11: the five items of the first example receipt add 10 points, and so
do five empty items. -/
theorem C11_item_pair_rule_witness :
    inIntRange (0 + 5 * ((targetReceipt.Items.length / 2 : Nat) : Int)) ∧
      itemPairStep targetReceipt 0 = 0 + 5 * ((5 / 2 : Nat) : Int) ∧
      itemPairStep (withItems targetReceipt
        [emptyItem, emptyItem, emptyItem, emptyItem, emptyItem]) 0 =
        itemPairStep targetReceipt 0 :=
  ⟨by decide, (C11_item_pair_rule targetReceipt 0).2.1 (by decide),
    (C11_item_pair_rule targetReceipt 0).2.2 _ (by decide)⟩

theorem rawPoints_perm (arch : Arch) (r : Receipt) (items : List Item)
    (h : items.Perm r.Items) : rawPoints arch (withItems r items) = rawPoints arch r := by
  have hl : (withItems r items).Items.length = r.Items.length := h.length_eq
  have hs : ((withItems r items).Items.map (itemStep arch 0)).sum =
      (r.Items.map (itemStep arch 0)).sum := (h.map _).sum_eq
  unfold rawPoints
  rw [hl, hs]
  rfl

/-- C18. For every receipt `r` and every permutation of its sequence of items,
`calculatePoints` of the receipt with the permuted items equals `calculatePoints r`. -/
theorem C18_item_order (arch : Arch) (r : Receipt) (items : List Item)
    (h : items.Perm r.Items) :
    calculatePoints arch (withItems r items) = calculatePoints arch r := by
  rw [calculatePoints_eq_wrap, calculatePoints_eq_wrap, rawPoints_perm arch r items h]

/-- Witness of C18: the first example receipt with its items reversed is worth the
same 28 points. -/
theorem C18_item_order_witness :
    targetReceipt.Items.reverse.Perm targetReceipt.Items ∧
      calculatePoints amd64 (withItems targetReceipt targetReceipt.Items.reverse) =
        calculatePoints amd64 targetReceipt ∧
      calculatePoints amd64 targetReceipt = 28 :=
  ⟨List.reverse_perm _, C18_item_order amd64 targetReceipt _ (List.reverse_perm _),
    by decide!⟩

/-! ## Whole totals -/

theorem toInt_fin_natCast (arch : Arch) (t : Nat) (ht : t < 2 ^ 63) :
    (Float64.fin (t : Rat)).toInt arch = t := by
  have h := truncInt_intCast (t : Int) (by unfold inIntRange; constructor <;> omega)
  rw [Int.cast_natCast] at h
  exact toInt_of_truncInt arch _ _ h

theorem ofInt_natCast (t : Nat) (ht : t < 2 ^ 53) : Float64.ofInt (t : Int) = .fin t := by
  unfold Float64.ofInt
  rw [Int.cast_natCast]
  exact roundToF64_nat t ht

/-- A whole total with less than `2 ^ 53` cents earns both total bonuses. -/
theorem whole_total_bonuses (arch : Arch) (r : Receipt) (t : Nat)
    (hparse : (ParseFloat r.Total).1 = .fin t) (ht : 100 * t < 2 ^ 53) (points : Int) :
    roundDollarStep arch r points = addInt points 50 ∧
      quarterStep arch r points = addInt points 25 := by
  constructor
  · unfold roundDollarStep
    dsimp only
    rw [hparse, toInt_fin_natCast arch t (by omega), ofInt_natCast t (by omega)]
    exact if_pos (by simp [Float64.eq])
  · unfold quarterStep
    dsimp only
    have e : (t : Rat) * 100 = ((100 * t : Nat) : Rat) := by push_cast; ring
    rw [hparse, mul_fin_fin, e, roundToF64_nat _ ht, toInt_fin_natCast arch _ (by omega)]
    apply if_pos
    rw [Int.tmod_eq_emod (by omega) (by omega)]
    omega

/-- C12. The code contradicts the claim for large whole totals: the total
"1000000000000001" is a whole number and earns the 50 points of the round-dollar block,
but its product with 100 is rounded by `float64` to 100000000000000096, which is not
divisible by 25, so the quarter-multiple block adds nothing and the two blocks contribute
50. For a whole total with less than `2 ^ 53` cents, such as "35.00", both blocks apply
and contribute 75, as claimed. -/
theorem C12_whole_totals (arch : Arch) (r : Receipt) (points : Int) :
    (∀ t : Nat, (ParseFloat r.Total).1 = .fin t → 100 * t < 2 ^ 53 →
        quarterStep arch r (roundDollarStep arch r points) = addInt (addInt points 50) 25) ∧
      (ParseFloat "1000000000000001").1 = .fin 1000000000000001 ∧
      (ParseFloat "1000000000000001").1.mul (.fin 100) = .fin 100000000000000096 ∧
      roundDollarStep arch (withTotal r "1000000000000001") points = addInt points 50 ∧
      quarterStep arch (withTotal r "1000000000000001") (addInt points 50) =
        addInt points 50 := by
  refine ⟨?_, by decide!, by decide!, ?_, ?_⟩
  · intro t hparse ht
    rw [(whole_total_bonuses arch r t hparse ht points).1,
      (whole_total_bonuses arch r t hparse ht _).2]
  · unfold roundDollarStep withTotal
    dsimp only
    rw [toInt_of_truncInt arch (ParseFloat "1000000000000001").1 1000000000000001 (by decide!)]
    exact if_pos (by decide!)
  · unfold quarterStep withTotal
    dsimp only
    rw [toInt_of_truncInt arch ((ParseFloat "1000000000000001").1.mul (.fin 100))
      100000000000000096 (by decide!)]
    exact if_neg (by decide)

/-- Witness of C12: the total "35.00" parses to 35 and earns the 75 points; a receipt
with nothing but the total "1000000000000001" is worth 50 points. -/
theorem C12_whole_totals_witness :
    (ParseFloat (withTotal targetReceipt "35.00").Total).1 = .fin (35 : Nat) ∧
      100 * 35 < 2 ^ 53 ∧
      quarterStep amd64 (withTotal targetReceipt "35.00")
        (roundDollarStep amd64 (withTotal targetReceipt "35.00") 0) = addInt (addInt 0 50) 25 ∧
      calculatePoints amd64 ⟨"", "2022-01-02", "13:00", "1000000000000001", []⟩ = 50 :=
  ⟨by decide!, by decide,
    (C12_whole_totals amd64 (withTotal targetReceipt "35.00") 0).1 35 (by decide!) (by decide),
    by decide!⟩

/-! ## The maps -/

theorem mapGet_filter_ne {V : Type} (m : List (String × V)) (k k2 : String) (h : k2 ≠ k) :
    mapGet (m.filter (fun e => decide (e.1 ≠ k))) k2 = mapGet m k2 := by
  induction m with
  | nil => rfl
  | cons e rest ih =>
    obtain ⟨k1, v⟩ := e
    by_cases h1 : k1 = k
    · have hne : k1 ≠ k2 := fun h2 => h (h2.symm.trans h1)
      have hd : decide ((k1, v).1 ≠ k) = false := by simp [h1]
      have hr : mapGet ((k1, v) :: rest) k2 = mapGet rest k2 := by
        rw [mapGet, if_neg hne]
      rw [List.filter_cons, hd, hr]
      exact ih
    · have hd : decide ((k1, v).1 ≠ k) = true := by simp [h1]
      rw [List.filter_cons, hd]
      simp only [if_true, mapGet, ih]

theorem mapGet_mapSet_self {V : Type} (m : List (String × V)) (k : String) (v : V) :
    mapGet (mapSet m k v) k = some v := by
  simp [mapSet, mapGet]

theorem mapGet_mapSet_ne {V : Type} (m : List (String × V)) (k k2 : String) (v : V)
    (h : k2 ≠ k) : mapGet (mapSet m k v) k2 = mapGet m k2 := by
  unfold mapSet
  rw [mapGet, if_neg (fun h1 => h h1.symm)]
  exact mapGet_filter_ne m k k2 h

theorem not_mem_keys_of_mapGet_none {V : Type} (m : List (String × V)) (k : String)
    (h : mapGet m k = none) : ∀ e ∈ m, e.1 ≠ k := by
  induction m with
  | nil => intro e he; cases he
  | cons e0 rest ih =>
    obtain ⟨k1, v⟩ := e0
    rw [mapGet] at h
    by_cases h1 : k1 = k
    · rw [if_pos h1] at h; cases h
    · rw [if_neg h1] at h
      intro e he
      rcases List.mem_cons.mp he with rfl | hr
      · exact h1
      · exact ih h e hr

theorem mapSet_length_fresh {V : Type} (m : List (String × V)) (k : String) (v : V)
    (h : mapGet m k = none) : (mapSet m k v).length = m.length + 1 := by
  unfold mapSet
  have hf : m.filter (fun e => decide (e.1 ≠ k)) = m := by
    rw [List.filter_eq_self]
    intro e he
    simpa using not_mem_keys_of_mapGet_none m k h e he
  rw [List.length_cons, hf]

theorem mapSet_keys_nodup {V : Type} (m : List (String × V)) (k : String) (v : V)
    (h : (m.map Prod.fst).Nodup) : ((mapSet m k v).map Prod.fst).Nodup := by
  unfold mapSet
  rw [List.map_cons, List.nodup_cons]
  constructor
  · intro hmem
    obtain ⟨e, he, hk⟩ := List.mem_map.mp hmem
    have := (List.mem_filter.mp he).2
    simp at this
    exact this hk
  · exact h.sublist ((List.filter_sublist m).map Prod.fst)

/-! ## Submissions -/

theorem processReceipts_post (arch : Arch) (uuid : UUID) (st : Store) (path : String)
    (r : Receipt) :
    processReceipts arch uuid st ⟨"POST", path, some r⟩ =
      (⟨mapSet st.receipts uuid.String r,
          mapSet st.points uuid.String (calculatePoints arch r)⟩,
        ⟨200, .id uuid.String⟩) := by
  unfold processReceipts
  rw [if_neg (by simp)]

/-- C15. For every store state and every receipt, a successful submission under a fresh
identifier (one that is a key of neither map) adds exactly one entry to the receipts map
and one to the points map, the new receipt entry holds the submitted receipt verbatim,
no key is duplicated, and the receipt and the score of every other identifier are
unchanged; hence after two submissions to the empty store under two different
identifiers the listing holds exactly two entries, the two receipts as submitted. -/
theorem C15_submission_only_adds (arch : Arch) (uuid : UUID) (st : Store) (path : String)
    (r : Receipt)
    (hfresh : mapGet st.receipts uuid.String = none ∧ mapGet st.points uuid.String = none) :
    (processReceipts arch uuid st ⟨"POST", path, some r⟩).1.receipts.length =
        st.receipts.length + 1 ∧
      (processReceipts arch uuid st ⟨"POST", path, some r⟩).1.points.length =
        st.points.length + 1 ∧
      mapGet (processReceipts arch uuid st ⟨"POST", path, some r⟩).1.receipts uuid.String =
        some r ∧
      ((st.receipts.map Prod.fst).Nodup →
        ((processReceipts arch uuid st ⟨"POST", path, some r⟩).1.receipts.map Prod.fst).Nodup) ∧
      (∀ id : String, id ≠ uuid.String →
        mapGet (processReceipts arch uuid st ⟨"POST", path, some r⟩).1.receipts id =
            mapGet st.receipts id ∧
          mapGet (processReceipts arch uuid st ⟨"POST", path, some r⟩).1.points id =
            mapGet st.points id) ∧
      (∀ (uuid2 : UUID) (path2 path3 : String) (r2 : Receipt) (body : Option Receipt),
        uuid2.String ≠ uuid.String →
        listReceipts (processReceipts arch uuid2
            (processReceipts arch uuid Store.empty ⟨"POST", path, some r⟩).1
            ⟨"POST", path2, some r2⟩).1 ⟨"GET", path3, body⟩ =
          ⟨200, .receipts [(uuid2.String, r2), (uuid.String, r)]⟩) := by
  rw [processReceipts_post]
  refine ⟨mapSet_length_fresh _ _ _ hfresh.1, mapSet_length_fresh _ _ _ hfresh.2,
    mapGet_mapSet_self _ _ _, mapSet_keys_nodup _ _ _, ?_, ?_⟩
  · intro id hid
    exact ⟨mapGet_mapSet_ne _ _ _ _ hid, mapGet_mapSet_ne _ _ _ _ hid⟩
  · intro uuid2 path2 path3 r2 body hne
    rw [processReceipts_post, processReceipts_post]
    unfold listReceipts
    rw [if_neg (by simp)]
    have hd : decide ((uuid.String, r).1 ≠ uuid2.String) = true := by
      simpa using fun h => hne h.symm
    simp only [Store.empty, mapSet, List.filter_nil, List.filter_cons, hd, if_true]

/-- C16. The handler `processReceipts` answers 405 to every request whose method is not
POST, whatever its body, and 400 to every POST whose body does not decode to a receipt,
and in both cases leaves the two maps as they were; `listReceipts` answers 405 to every
request whose method is not GET. -/
theorem C16_rejected_submissions (arch : Arch) (uuid : UUID) (st : Store) (req : Request) :
    (req.Method ≠ "POST" →
        processReceipts arch uuid st req = (st, ⟨405, .error "Invalid request method"⟩)) ∧
      (req.Method = "POST" → req.Body = none →
        processReceipts arch uuid st req = (st, ⟨400, .error "Bad request"⟩)) ∧
      (req.Method ≠ "GET" → listReceipts st req = ⟨405, .error "Invalid request method"⟩) := by
  refine ⟨?_, ?_, ?_⟩
  · intro h
    unfold processReceipts
    rw [if_pos h]
  · intro h hb
    unfold processReceipts
    rw [if_neg (fun hc => hc h), hb]
  · intro h
    unfold listReceipts
    rw [if_pos h]

/-- The invariant of the two maps: the score stored for an identifier is the score of
the receipt stored for it, and there is one exactly when there is the other. -/
theorem serve_invariant (arch : Arch) (st : Store) (call : Handler × Request)
    (h : ∀ id, mapGet st.points id = (mapGet st.receipts id).map (calculatePoints arch)) :
    ∀ id, mapGet (serve arch st call).1.points id =
      (mapGet (serve arch st call).1.receipts id).map (calculatePoints arch) := by
  obtain ⟨handler, req⟩ := call
  cases handler with
  | getPoints => exact h
  | listReceipts => exact h
  | processReceipts uuid =>
    show ∀ id, mapGet (processReceipts arch uuid st req).1.points id =
      (mapGet (processReceipts arch uuid st req).1.receipts id).map (calculatePoints arch)
    unfold processReceipts
    by_cases hm : req.Method ≠ "POST"
    · rw [if_pos hm]; exact h
    · rw [if_neg hm]
      cases hb : req.Body with
      | none => exact h
      | some receipt =>
        intro id
        dsimp only
        by_cases hid : id = uuid.String
        · rw [hid, mapGet_mapSet_self, mapGet_mapSet_self]
          rfl
        · rw [mapGet_mapSet_ne _ _ _ _ hid, mapGet_mapSet_ne _ _ _ _ hid]
          exact h id

theorem serveAll_invariant (arch : Arch) (calls : List (Handler × Request)) (st : Store)
    (h : ∀ id, mapGet st.points id = (mapGet st.receipts id).map (calculatePoints arch)) :
    ∀ id, mapGet (serveAll arch st calls).points id =
      (mapGet (serveAll arch st calls).receipts id).map (calculatePoints arch) := by
  induction calls generalizing st with
  | nil => exact h
  | cons call rest ih =>
    show ∀ id, mapGet (serveAll arch (serve arch st call).1 rest).points id = _
    exact ih _ (serve_invariant arch st call h)

/-- C17. In every state reached from the empty store by a sequence of requests to
`processReceipts`, `getPoints` and `listReceipts`, served one after the other, the
receipts map and the points map have the same identifiers, and the points stored for
an identifier are `calculatePoints` of the receipt stored for it. -/
theorem C17_store_consistency (arch : Arch) (calls : List (Handler × Request)) :
    (∀ id : String, (mapGet (serveAll arch Store.empty calls).receipts id).isSome ↔
        (mapGet (serveAll arch Store.empty calls).points id).isSome) ∧
      (∀ (id : String) (r : Receipt),
        mapGet (serveAll arch Store.empty calls).receipts id = some r →
          mapGet (serveAll arch Store.empty calls).points id =
            some (calculatePoints arch r)) := by
  have h := serveAll_invariant arch calls Store.empty (fun id => rfl)
  constructor
  · intro id
    rw [h id]
    cases mapGet (serveAll arch Store.empty calls).receipts id <;> simp
  · intro id r hr
    rw [h id, hr]
    rfl



/-! ## Paths -/

theorem Split_ne_nil (s : List Char) (sep : Char) : Split s sep ≠ [] := by
  cases s with
  | nil => simp [Split]
  | cons c cs =>
    rw [Split]
    split
    · simp
    · split <;> simp

theorem Split_append_sep (a b : List Char) (sep : Char) (h : ∀ x ∈ a, x ≠ sep) :
    Split (a ++ sep :: b) sep = a :: Split b sep := by
  induction a with
  | nil => simp [Split]
  | cons x a ih =>
    have hx : x ≠ sep := h x (List.mem_cons_self _ _)
    rw [List.cons_append, Split, if_neg hx, ih (fun y hy => h y (List.mem_cons_of_mem _ hy))]

theorem Split_no_sep (a : List Char) (sep : Char) (h : ∀ x ∈ a, x ≠ sep) :
    Split a sep = [a] := by
  induction a with
  | nil => simp [Split]
  | cons x a ih =>
    have hx : x ≠ sep := h x (List.mem_cons_self _ _)
    rw [Split, if_neg hx, ih (fun y hy => h y (List.mem_cons_of_mem _ hy))]

/-- The parts of `Split` have no separator, and joined with it they give the text. -/
theorem Split_spec (s : List Char) (sep : Char) :
    (∀ part ∈ Split s sep, ∀ x ∈ part, x ≠ sep) ∧ joinWith sep (Split s sep) = s := by
  induction s with
  | nil => simp [Split, joinWith]
  | cons c cs ih =>
    obtain ⟨ih1, ih2⟩ := ih
    rw [Split]
    by_cases hc : c = sep
    · rw [if_pos hc]
      constructor
      · intro part hp
        rcases List.mem_cons.mp hp with rfl | hr
        · intro x hx; cases hx
        · exact ih1 part hr
      · obtain ⟨p, ps, hps⟩ := List.exists_cons_of_ne_nil (Split_ne_nil cs sep)
        rw [hps] at ih2 ⊢
        rw [joinWith, ih2, hc]
        rfl
    · rw [if_neg hc]
      obtain ⟨p, ps, hps⟩ := List.exists_cons_of_ne_nil (Split_ne_nil cs sep)
      rw [hps] at ih1 ih2 ⊢
      dsimp only
      constructor
      · intro part hp
        rcases List.mem_cons.mp hp with rfl | hr
        · intro x hx
          rcases List.mem_cons.mp hx with rfl | hx2
          · exact hc
          · exact ih1 p (List.mem_cons_self _ _) x hx2
        · exact ih1 part (List.mem_cons_of_mem _ hr)
      · cases ps with
        | nil =>
          rw [joinWith] at ih2 ⊢
          rw [ih2]
        | cons q qs =>
          rw [joinWith] at ih2 ⊢
          rw [List.cons_append, ih2]

theorem dropWhile_head (c : Char) (l : List Char) (x : Char) (rest : List Char)
    (h : l.dropWhile (fun y => y == c) = x :: rest) : x ≠ c := by
  induction l with
  | nil => simp at h
  | cons y l ih =>
    rw [List.dropWhile_cons] at h
    by_cases hy : y = c
    · rw [if_pos (by simpa using hy)] at h
      exact ih h
    · rw [if_neg (by simpa using hy)] at h
      cases h
      exact hy

theorem dropWhile_eq_self (c : Char) (l : List Char) (h : ∀ x rest, l = x :: rest → x ≠ c) :
    l.dropWhile (fun y => y == c) = l := by
  cases l with
  | nil => rfl
  | cons x rest =>
    rw [List.dropWhile_cons, if_neg (by simpa using h x rest rfl)]

theorem dropWhile_replicate_append (c : Char) (n : Nat) (l : List Char)
    (h : ∀ x rest, l = x :: rest → x ≠ c) :
    (List.replicate n c ++ l).dropWhile (fun y => y == c) = l := by
  induction n with
  | zero => simpa using dropWhile_eq_self c l h
  | succ n ih =>
    rw [List.replicate_succ, List.cons_append, List.dropWhile_cons, if_pos (by simp)]
    exact ih

/-- An untrimmed text is its trimmed text between two runs of the cutset character. -/
theorem Trim_spec (s : List Char) (c : Char) :
    ∃ n m : Nat, s = List.replicate n c ++ Trim s c ++ List.replicate m c := by
  have hrep : ∀ l : List Char, (l.takeWhile (fun y => y == c)) =
      List.replicate (l.takeWhile (fun y => y == c)).length c := by
    intro l
    rw [List.eq_replicate_iff]
    refine ⟨rfl, fun x hx => ?_⟩
    simpa using List.mem_takeWhile_imp hx
  have h1 := List.takeWhile_append_dropWhile (fun y => y == c) s
  have h2 := List.takeWhile_append_dropWhile (fun y => y == c)
    (s.dropWhile (fun y => y == c)).reverse
  have h3 : s.dropWhile (fun y => y == c) =
      Trim s c ++ ((s.dropWhile (fun y => y == c)).reverse.takeWhile (fun y => y == c)).reverse := by
    unfold Trim
    rw [← List.reverse_append, h2, List.reverse_reverse]
  have e1 : List.replicate (s.takeWhile (fun y => y == c)).length c =
      s.takeWhile (fun y => y == c) := (hrep s).symm
  have e2 : List.replicate
      ((s.dropWhile (fun y => y == c)).reverse.takeWhile (fun y => y == c)).length c =
      ((s.dropWhile (fun y => y == c)).reverse.takeWhile (fun y => y == c)).reverse := by
    conv_rhs => rw [hrep]
    rw [List.reverse_replicate]
  refine ⟨(s.takeWhile (fun y => y == c)).length,
    ((s.dropWhile (fun y => y == c)).reverse.takeWhile (fun y => y == c)).length, ?_⟩
  rw [e1, e2, List.append_assoc, ← h3, h1]

theorem Trim_head (s : List Char) (c x : Char) (rest : List Char)
    (h : Trim s c = x :: rest) : x ≠ c := by
  have h2 := List.takeWhile_append_dropWhile (fun y => y == c)
    (s.dropWhile (fun y => y == c)).reverse
  have h3 : s.dropWhile (fun y => y == c) =
      Trim s c ++ ((s.dropWhile (fun y => y == c)).reverse.takeWhile (fun y => y == c)).reverse := by
    unfold Trim
    rw [← List.reverse_append, h2, List.reverse_reverse]
  rw [h, List.cons_append] at h3
  exact dropWhile_head c s x _ h3

theorem Trim_of_body (c a z : Char) (mid : List Char) (n m : Nat) (ha : a ≠ c) (hz : z ≠ c) :
    Trim (List.replicate n c ++ (a :: (mid ++ [z])) ++ List.replicate m c) c =
      a :: (mid ++ [z]) := by
  unfold Trim
  rw [List.append_assoc, dropWhile_replicate_append c n _ (by
    intro x rest hx
    rw [List.cons_append] at hx
    cases hx
    exact ha)]
  have hrev : (a :: (mid ++ [z]) ++ List.replicate m c).reverse =
      List.replicate m c ++ (z :: (mid.reverse ++ [a])) := by
    simp
  rw [hrev, dropWhile_replicate_append c m _ (by
    intro x rest hx
    cases hx
    exact hz)]
  simp


theorem points_data : "points".data = "point".data ++ ['s'] := by decide

theorem getPoints_of_pointsPath (st : Store) (req : Request) (n m : Nat)
    (first id : List Char) (hf : first ≠ []) (h1 : noSlash first) (h2 : noSlash id)
    (hp : req.Path = pointsPath n m first id) :
    getPoints st req = pointsAnswer st ⟨id⟩ := by
  obtain ⟨a, f1, rfl⟩ := List.exists_cons_of_ne_nil hf
  have ha : a ≠ '/' := h1 a (List.mem_cons_self _ _)
  have hbody : (a :: f1) ++ '/' :: (id ++ '/' :: "points".data) =
      a :: ((f1 ++ '/' :: (id ++ '/' :: "point".data)) ++ ['s']) := by
    rw [points_data]
    simp
  have htrim : Trim (pointsPath n m (a :: f1) id).data '/' =
      (a :: f1) ++ '/' :: (id ++ '/' :: "points".data) := by
    show Trim (List.replicate n '/' ++ ((a :: f1) ++ '/' :: (id ++ '/' :: "points".data)) ++
      List.replicate m '/') '/' = _
    rw [hbody]
    exact Trim_of_body '/' a 's' _ n m ha (by decide)
  have hsplit : Split ((a :: f1) ++ '/' :: (id ++ '/' :: "points".data)) '/' =
      [a :: f1, id, "points".data] := by
    rw [Split_append_sep _ _ _ h1, Split_append_sep _ _ _ h2,
      Split_no_sep "points".data '/' (by decide)]
  unfold getPoints
  rw [hp, htrim, hsplit]
  rfl

theorem getPoints_not_400 (st : Store) (req : Request)
    (h : (getPoints st req).status ≠ 400) :
    ∃ (n m : Nat) (first id : List Char), first ≠ [] ∧ noSlash first ∧ noSlash id ∧
      req.Path = pointsPath n m first id := by
  unfold getPoints at h
  dsimp only at h
  by_cases hc : (Split (Trim req.Path.data '/') '/').length ≠ 3 ∨
      (Split (Trim req.Path.data '/') '/').getD 2 [] ≠ "points".data
  · rw [if_pos hc] at h
    exact absurd rfl h
  · have hlen : (Split (Trim req.Path.data '/') '/').length = 3 := by
      by_contra hn; exact hc (Or.inl hn)
    have hlast : (Split (Trim req.Path.data '/') '/').getD 2 [] = "points".data := by
      by_contra hn; exact hc (Or.inr hn)
    obtain ⟨a, b, c, habc⟩ := List.length_eq_three.mp hlen
    obtain ⟨s1, s2⟩ := Split_spec (Trim req.Path.data '/') '/'
    rw [habc] at hlast s1 s2
    have hcp : c = "points".data := by simpa using hlast
    have hjoin : Trim req.Path.data '/' = a ++ '/' :: (b ++ '/' :: "points".data) := by
      rw [← s2, hcp]
      rfl
    obtain ⟨n, m, hnm⟩ := Trim_spec req.Path.data '/'
    refine ⟨n, m, a, b, ?_, s1 a (by simp), s1 b (by simp), ?_⟩
    · intro ha
      rw [ha] at hjoin
      exact Trim_head _ _ _ _ hjoin rfl
    · have : req.Path = ⟨req.Path.data⟩ := rfl
      rw [this, hnm, hjoin]
      rfl

theorem hasExactShape_spec (path : String) (h : hasExactShape path = true) :
    ∃ id : List Char, noSlash id ∧ Split path.data '/' = [[], "receipts".data, id, "points".data] ∧
      path = pointsPath 1 0 "receipts".data id := by
  unfold hasExactShape at h
  obtain ⟨s1, s2⟩ := Split_spec path.data '/'
  split at h
  · rename_i first id last heq
    rw [heq] at s1 s2
    have hfl : first = "receipts".data ∧ last = "points".data := by simpa using h
    refine ⟨id, s1 id (by simp), by rw [heq, hfl.1, hfl.2], ?_⟩
    have : path = ⟨path.data⟩ := rfl
    rw [this, ← s2, hfl.1, hfl.2]
    simp [pointsPath, joinWith]
  · cases h

theorem hexEncode_noSlash (bs : List (Fin 256)) : noSlash (hexEncode bs) := by
  have hd : ∀ b : Fin 256, hextable.getD (b.val / 16) '0' ≠ '/' ∧
      hextable.getD (b.val % 16) '0' ≠ '/' := by decide!
  induction bs with
  | nil => intro c hc; cases hc
  | cons b rest ih =>
    intro c hc
    rw [hexEncode] at hc
    rcases List.mem_cons.mp hc with rfl | hc
    · exact (hd b).1
    · rcases List.mem_cons.mp hc with rfl | hc
      · exact (hd b).2
      · exact ih c hc

theorem uuid_noSlash (uuid : UUID) : noSlash uuid.String.data := by
  intro c hc
  have hdash : ('-' : Char) ≠ '/' := by decide
  simp only [UUID.String, List.mem_append, List.mem_cons] at hc
  rcases hc with (((h | rfl | h) | rfl | h) | rfl | h) | rfl | h <;>
    first | exact hdash | exact hexEncode_noSlash _ _ h

theorem receipts_path_eq (id : String) :
    "/receipts/" ++ id ++ "/points" = pointsPath 1 0 "receipts".data id.data := by
  apply String.ext
  simp [pointsPath, String.data_append]



/-! ## Submission, then query -/

theorem scenario_points (arch : Arch) (price : String) :
    calculatePoints arch (scenarioReceipt price) = 24 := by
  have h1 : retailerStep (scenarioReceipt price) 0 = 14 := by
    show addInt 0 ((FindAllString "M&M Corner Market").length : Int) = 14
    decide
  have h2 : roundDollarStep arch (scenarioReceipt price) 14 = 14 := by
    unfold roundDollarStep scenarioReceipt
    dsimp only
    rw [toInt_of_truncInt arch (ParseFloat "6.49").1 6 (by decide!)]
    exact if_neg (by decide!)
  have h3 : quarterStep arch (scenarioReceipt price) 14 = 14 := by
    unfold quarterStep scenarioReceipt
    dsimp only
    rw [toInt_of_truncInt arch ((ParseFloat "6.49").1.mul (.fin 100)) 649 (by decide!)]
    exact if_neg (by decide)
  have h4 : itemPairStep (scenarioReceipt price) 14 = 14 := by
    show addInt 14 (((1 / 2 : Nat) : Int) * 5) = 14
    decide
  have h5 : descriptionStep arch (scenarioReceipt price) 14 = 14 := by
    unfold descriptionStep scenarioReceipt
    simp only [List.foldl_cons, List.foldl_nil]
    unfold itemStep
    dsimp only
    exact if_neg (by decide)
  have h6 : oddDayStep (scenarioReceipt price) 14 = 14 := by
    show (if ((ParseDate "2022-03-20").getD Time.zero).Day.tmod 2 ≠ 0 then addInt 14 6 else 14)
      = 14
    decide
  have h7 : afternoonStep (scenarioReceipt price) 14 = 24 := by
    show (if ((ParseClock "14:33").getD Time.zero).Hour ≥ 14 ∧
      ((ParseClock "14:33").getD Time.zero).Hour < 16 then addInt 14 10 else 14) = 24
    decide
  unfold calculatePoints
  dsimp only
  rw [h1, h2, h3, h4, h5, h6, h7]

/-- C13. For every store state and every receipt `r` that the body of a POST decodes
to, `processReceipts` answers 200 with an identifier (the text of the UUID it draws) and
stores `r` and its points under it, and a following request to `getPoints` for
`/receipts/<id>/points` (whatever its method and body) answers 200 with the points
`calculatePoints r`; for the receipt of the scenario, whatever the price of its item,
that value is 24. -/
theorem C13_submit_then_query (arch : Arch) (uuid : UUID) (st : Store) (r : Receipt)
    (path method : String) (body : Option Receipt) :
    (processReceipts arch uuid st ⟨"POST", path, some r⟩).2 = ⟨200, .id uuid.String⟩ ∧
      mapGet (processReceipts arch uuid st ⟨"POST", path, some r⟩).1.receipts uuid.String =
        some r ∧
      getPoints (processReceipts arch uuid st ⟨"POST", path, some r⟩).1
          ⟨method, "/receipts/" ++ uuid.String ++ "/points", body⟩ =
        ⟨200, .points (calculatePoints arch r)⟩ ∧
      (∀ price : String, calculatePoints arch (scenarioReceipt price) = 24) := by
  rw [processReceipts_post]
  refine ⟨rfl, mapGet_mapSet_self _ _ _, ?_, scenario_points arch⟩
  rw [getPoints_of_pointsPath _ _ 1 0 "receipts".data uuid.String.data (by decide) (by decide)
    (uuid_noSlash uuid) (receipts_path_eq uuid.String)]
  unfold pointsAnswer
  dsimp only
  rw [mapGet_mapSet_self]

/-- C14, amended. The handler `getPoints` answers 400 unless the path of the request is,
between any number of leading and of trailing slashes, made of three segments without a
slash, the first not empty and not examined further, the last `points`; for such a path
it answers 404 when the middle segment has no stored score and otherwise 200 with the
points stored for it; this holds in particular for every path of exactly the shape
`/receipts/<id>/points`. -/
theorem C14_points_query_path (st : Store) (req : Request) :
    ((getPoints st req).status ≠ 400 →
        ∃ (n m : Nat) (first id : List Char), first ≠ [] ∧ noSlash first ∧ noSlash id ∧
          req.Path = pointsPath n m first id) ∧
      (∀ (n m : Nat) (first id : List Char), first ≠ [] → noSlash first → noSlash id →
        req.Path = pointsPath n m first id → getPoints st req = pointsAnswer st ⟨id⟩) ∧
      (hasExactShape req.Path = true →
        ∃ id : List Char, Split req.Path.data '/' = [[], "receipts".data, id, "points".data] ∧
          getPoints st req = pointsAnswer st ⟨id⟩) ∧
      (∀ id : String, (pointsAnswer st id).status = 404 ∧ mapGet st.points id = none ∨
        ∃ point, pointsAnswer st id = ⟨200, .points point⟩ ∧ mapGet st.points id = some point) := by
  refine ⟨getPoints_not_400 st req, ?_, ?_, ?_⟩
  · intro n m first id hf h1 h2 hp
    exact getPoints_of_pointsPath st req n m first id hf h1 h2 hp
  · intro h
    obtain ⟨id, hid, hsplit, hpath⟩ := hasExactShape_spec req.Path h
    exact ⟨id, hsplit,
      getPoints_of_pointsPath st req 1 0 "receipts".data id (by decide) (by decide) hid hpath⟩
  · intro id
    unfold pointsAnswer
    cases h : mapGet st.points id with
    | none => exact Or.inl ⟨rfl, rfl⟩
    | some point => exact Or.inr ⟨point, rfl, rfl⟩

/-- Witness of C14: with 7 points stored for `abc`, the path `/receipts/abc/points` is
answered 200 with 7 points and `/receipts/abd/points` is answered 404; the path
`/receipts/abc/points/x`, answered 400, is not of the accepted form. -/
theorem C14_points_query_path_witness :
    hasExactShape "/receipts/abc/points" = true ∧
      "/receipts/abc/points" = pointsPath 1 0 "receipts".data "abc".data ∧
      getPoints ⟨[], [("abc", 7)]⟩ ⟨"GET", "/receipts/abc/points", none⟩ =
        pointsAnswer ⟨[], [("abc", 7)]⟩ "abc" ∧
      pointsAnswer ⟨[], [("abc", 7)]⟩ "abc" = ⟨200, .points 7⟩ ∧
      getPoints ⟨[], [("abc", 7)]⟩ ⟨"GET", "/receipts/abd/points", none⟩ =
        ⟨404, .error "Not found"⟩ ∧
      (getPoints ⟨[], [("abc", 7)]⟩ ⟨"GET", "/receipts/abc/points/x", none⟩).status = 400 :=
  ⟨by decide, by decide,
    (C14_points_query_path ⟨[], [("abc", 7)]⟩ ⟨"GET", "/receipts/abc/points", none⟩).2.1
      1 0 "receipts".data "abc".data (by decide) (by decide) (by decide) (by decide),
    by decide,
    ((C14_points_query_path ⟨[], [("abc", 7)]⟩ ⟨"GET", "/receipts/abd/points", none⟩).2.1
      1 0 "receipts".data "abd".data (by decide) (by decide) (by decide) (by decide)).trans
      (by decide),
    by decide⟩

/-- C14 as stated fails: the path `/receipts/abc/points/`, with a slash after `points`,
does not have exactly the shape `/receipts/<id>/points`, and `getPoints` answers it 200
with the points of `abc` (404 when `abc` is unknown), not 400; so does the handler for
`/other/abc/points`, whose first segment is not `receipts`. -/
theorem C14_points_query_path_counterexample :
    hasExactShape "/receipts/abc/points/" = false ∧
      getPoints ⟨[], [("abc", 7)]⟩ ⟨"GET", "/receipts/abc/points/", none⟩ =
        ⟨200, .points 7⟩ ∧
      getPoints Store.empty ⟨"GET", "/receipts/abc/points/", none⟩ =
        ⟨404, .error "Not found"⟩ ∧
      hasExactShape "/other/abc/points" = false ∧
      getPoints ⟨[], [("abc", 7)]⟩ ⟨"GET", "/other/abc/points", none⟩ = ⟨200, .points 7⟩ := by
  decide

/-- Witness of C13: the receipt of the scenario, submitted to the empty store, is
answered with its identifier, and the query for that identifier is answered 24. -/
theorem C13_submit_then_query_witness :
    (processReceipts amd64 sampleUUID Store.empty
        ⟨"POST", "/receipts/process", some (scenarioReceipt "2.25")⟩).2 =
        ⟨200, .id "12345678-9abc-def0-0123-456789abcdef"⟩ ∧
      getPoints (processReceipts amd64 sampleUUID Store.empty
          ⟨"POST", "/receipts/process", some (scenarioReceipt "2.25")⟩).1
          ⟨"GET", "/receipts/12345678-9abc-def0-0123-456789abcdef/points", none⟩ =
        ⟨200, .points 24⟩ :=
  ⟨((C13_submit_then_query amd64 sampleUUID Store.empty (scenarioReceipt "2.25")
      "/receipts/process" "GET" none).1).trans (by decide),
    by
      have h := (C13_submit_then_query amd64 sampleUUID Store.empty (scenarioReceipt "2.25")
        "/receipts/process" "GET" none).2.2
      rw [h.2 "2.25"] at h
      exact h.1⟩

/-- Witness of C15: two submissions to the empty store under two different identifiers
give a listing of exactly the two receipts. -/
theorem C15_submission_only_adds_witness :
    (mapGet Store.empty.receipts zeroUUID.String = none ∧
        mapGet Store.empty.points zeroUUID.String = none) ∧
      sampleUUID.String ≠ zeroUUID.String ∧
      (processReceipts amd64 zeroUUID Store.empty
        ⟨"POST", "/receipts/process", some targetReceipt⟩).1.receipts.length = 0 + 1 ∧
      listReceipts (processReceipts amd64 sampleUUID
          (processReceipts amd64 zeroUUID Store.empty
            ⟨"POST", "/receipts/process", some targetReceipt⟩).1
          ⟨"POST", "/receipts/process", some cornerMarketReceipt⟩).1
          ⟨"GET", "/receipts", none⟩ =
        ⟨200, .receipts [(sampleUUID.String, cornerMarketReceipt),
          (zeroUUID.String, targetReceipt)]⟩ :=
  ⟨by decide, by decide,
    (C15_submission_only_adds amd64 zeroUUID Store.empty "/receipts/process" targetReceipt
      (by decide)).1,
    (C15_submission_only_adds amd64 zeroUUID Store.empty "/receipts/process" targetReceipt
      (by decide)).2.2.2.2.2 sampleUUID "/receipts/process" "/receipts" cornerMarketReceipt none
      (by decide)⟩

/-- Witness of C16: a GET to `processReceipts` is answered 405, a POST without a
decodable body 400, both leaving the store as it was, and a POST to `listReceipts` is
answered 405. -/
theorem C16_rejected_submissions_witness :
    processReceipts amd64 sampleUUID ⟨[], [("abc", 7)]⟩
        ⟨"GET", "/receipts/process", some targetReceipt⟩ =
        (⟨[], [("abc", 7)]⟩, ⟨405, .error "Invalid request method"⟩) ∧
      processReceipts amd64 sampleUUID ⟨[], [("abc", 7)]⟩ ⟨"POST", "/receipts/process", none⟩ =
        (⟨[], [("abc", 7)]⟩, ⟨400, .error "Bad request"⟩) ∧
      listReceipts ⟨[], [("abc", 7)]⟩ ⟨"POST", "/receipts", none⟩ =
        ⟨405, .error "Invalid request method"⟩ :=
  ⟨(C16_rejected_submissions amd64 sampleUUID ⟨[], [("abc", 7)]⟩
      ⟨"GET", "/receipts/process", some targetReceipt⟩).1 (by decide),
    (C16_rejected_submissions amd64 sampleUUID ⟨[], [("abc", 7)]⟩
      ⟨"POST", "/receipts/process", none⟩).2.1 rfl rfl,
    (C16_rejected_submissions amd64 sampleUUID ⟨[], [("abc", 7)]⟩
      ⟨"POST", "/receipts", none⟩).2.2 (by decide)⟩

/-- Witness of C17: after a submission of the scenario receipt, a query and a listing,
the identifier drawn has the receipt and its 24 points. -/
theorem C17_store_consistency_witness :
    mapGet (serveAll amd64 Store.empty
        [(.processReceipts sampleUUID,
            ⟨"POST", "/receipts/process", some (scenarioReceipt "2.25")⟩),
          (.getPoints, ⟨"GET", "/receipts/x/points", none⟩),
          (.listReceipts, ⟨"GET", "/receipts", none⟩)]).receipts sampleUUID.String =
        some (scenarioReceipt "2.25") ∧
      mapGet (serveAll amd64 Store.empty
        [(.processReceipts sampleUUID,
            ⟨"POST", "/receipts/process", some (scenarioReceipt "2.25")⟩),
          (.getPoints, ⟨"GET", "/receipts/x/points", none⟩),
          (.listReceipts, ⟨"GET", "/receipts", none⟩)]).points sampleUUID.String =
        some (calculatePoints amd64 (scenarioReceipt "2.25")) :=
  ⟨by decide,
    (C17_store_consistency amd64 _).2 sampleUUID.String (scenarioReceipt "2.25") (by decide)⟩

end ReceiptProcessor
